import Mathlib

/-!
Verification of the eigenpod proof-generation core.

The Go source is embedded shallowly: pure functions become Lean functions,
the per-slot cache becomes explicit state passing, Go's `(value, error)`
multiple returns become `Except` values (or `Option value × Option error`
pairs for the two top-level entry points, which the source documents as
returning a nil object together with a non-nil error), and a Go runtime
out-of-bounds slice access is represented by the distinguished error value
`Err.outOfBoundsAccess`.  SHA-256 is an external primitive and is kept
abstract as a function parameter `sha : Bytes → Root`; every structural
statement below is proved for all instantiations of `sha`.

Repository code that is referenced by the sources under verification but
whose text is not available (the merkle-tree helpers, the length encoding,
the state-root proof, the cache) is modelled from the specification; each
such definition carries a doc comment starting with `Modelled from the
spec:`.
-/

namespace EPP

/-- Decidable equality for `Except` results, used when evaluating the
embedded functions at concrete inputs. -/

instance {ε α : Type _} [DecidableEq ε] [DecidableEq α] : DecidableEq (Except ε α) :=
  fun x y =>
    match x, y with
    | .ok a, .ok b =>
      if h : a = b then isTrue (by rw [h])
      else isFalse (by intro hc; cases hc; exact h rfl)
    | .ok _, .error _ => isFalse (by intro hc; cases hc)
    | .error _, .ok _ => isFalse (by intro hc; cases hc)
    | .error a, .error b =>
      if h : a = b then isTrue (by rw [h])
      else isFalse (by intro hc; cases hc; exact h rfl)

/-- Error kinds surfaced by the proof-generation core (spec section 7),
together with `outOfBoundsAccess`, which models a Go runtime slice-index
panic rather than a returned error value. -/

inductive Err where
  | stateAccess
  | unknownFork
  | indexOutOfRange
  | valueTooLarge
  | internalTree
  | outOfBoundsAccess
  | fetchFailed
deriving DecidableEq

/-- Byte strings are lists of naturals (each intended to be < 256). -/

abbrev Bytes := List Nat

/-- A 32-byte root. -/

abbrev Root := List Nat

/-- A 32-byte chunk. -/

abbrev Bytes32 := List Nat

/-- An ordered sequence of sibling roots, leaf side first (common.Proof). -/

abbrev Proof := List Root

/-- The all-zero 32-byte leaf. -/

def zeroRoot : Root := List.replicate 32 0

/-- Modelled from the spec: little-endian byte decomposition; byte `i` of
`leBytes k n` is `n / 256 ^ i % 256`. -/

def leBytes : Nat → Nat → List Nat
  | 0, _ => []
  | k + 1, n => n % 256 :: leBytes k (n / 256)

/-- Modelled from the spec: `big_to_little_endian_32`, the 32-byte
little-endian encoding used for the length sibling of list proofs. -/

def BigToLittleEndian (n : Nat) : Bytes32 := leBytes 32 n

/-- Modelled from the spec: `pack_u64_le`, little-endian 8 bytes
zero-padded right to 32. -/

def packU64LE (n : Nat) : Bytes32 := leBytes 8 n ++ List.replicate 24 0

/-- Modelled from the spec: `pack_bool`, first byte 0 or 1, remainder zero. -/

def packBool (b : Bool) : Bytes32 := (if b then 1 else 0) :: List.replicate 31 0

/-- Little-endian value of a byte string. -/

def decodeLE : List Nat → Nat
  | [] => 0
  | b :: rest => b + 256 * decodeLE rest

/-- Decode the first 8 bytes of a chunk as a little-endian u64. -/

def decodeU64LE (l : List Nat) : Nat := decodeLE (l.take 8)

/-- Modelled from the spec: `hash_pair(l, r)` is SHA-256 over the 64-byte
concatenation; `sha` is the abstract SHA-256 primitive. -/

def hashPair (sha : Bytes → Root) (l r : Root) : Root := sha (l ++ r)

/-- Modelled from the spec: the root of an all-zero subtree of depth `k`
(the zero-subtree memoization the spec explicitly allows). -/

def zeroSubtreeRoot (sha : Bytes → Root) : Nat → Root
  | 0 => zeroRoot
  | k + 1 => hashPair sha (zeroSubtreeRoot sha k) (zeroSubtreeRoot sha k)

/-- Modelled from the spec: node `i` of layer `k` (leaves are layer 0) of
the merkle tree over the leaf sequence `L` zero-padded to `2 ^ d`; a
subtree whose leaf range lies entirely in the zero padding is the
memoized zero-subtree root. -/

def merkleNode (sha : Bytes → Root) (L : List Root) : Nat → Nat → Root
  | 0, i => L.getD i zeroRoot
  | k + 1, i =>
    if L.length ≤ 2 ^ (k + 1) * i then zeroSubtreeRoot sha (k + 1)
    else hashPair sha (merkleNode sha L k (2 * i)) (merkleNode sha L k (2 * i + 1))


/-- Modelled from the spec: `proof(i)` over the tree determined by the leaf
layer `tree`: at each level `k` below `numLayers`, emit the sibling of the
ancestor of leaf `index`, i.e. node `(index >>> k) XOR 1` of layer `k`;
an index at or beyond the padded width `2 ^ numLayers` fails with
`ErrIndexOutOfRange`. -/

def ComputeMerkleProofFromTree (sha : Bytes → Root) (tree : List Root)
    (index : Nat) (numLayers : Nat) : Except Err Proof :=
  if index < 2 ^ numLayers then
    .ok ((List.range numLayers).map (fun k => merkleNode sha tree k ((index >>> k) ^^^ 1)))
  else .error .indexOutOfRange

/-- The beacon-chain `Validator` container (go-eth2-client phase0.Validator),
with u64 fields as naturals and byte arrays as byte lists. -/

structure Validator where
  publicKey : Bytes
  withdrawalCredentials : Bytes
  effectiveBalance : Nat
  slashed : Bool
  activationEligibilityEpoch : Nat
  activationEpoch : Nat
  exitEpoch : Nat
  withdrawableEpoch : Nat
deriving DecidableEq, Inhabited

/-- The beacon block header (phase0.BeaconBlockHeader). -/

structure BeaconBlockHeader where
  slot : Nat
  proposerIndex : Nat
  parentRoot : Root
  stateRoot : Root
  bodyRoot : Root
deriving DecidableEq, Inhabited

/-- The opaque `spec.VersionedBeaconState`: its `Slot()` and `Validators()`
accessors are external library code that either yields a value or an
error, so they are embedded as `Except`-valued fields. -/

structure VersionedBeaconState where
  slotRes : Except Err Nat
  validatorsRes : Except Err (List Validator)

/-- The ordered vector of per-field hash-tree-roots of the beacon state
container (beacon.BeaconStateTopLevelRoots). -/

structure BeaconStateTopLevelRoots where
  roots : List Root
deriving DecidableEq

/-- The `StateRootProof` output record. -/

structure StateRootProof where
  beaconStateRoot : Root
  stateRootProof : Proof
deriving DecidableEq, Inhabited

/-- The `VerifyValidatorFieldsCallParams` output record. -/

structure VerifyValidatorFieldsCallParams where
  oracleTimestamp : Nat
  stateRootProof : StateRootProof
  validatorIndices : List Nat
  validatorFieldsProofs : List Proof
  validatorFields : List (List Bytes32)
deriving DecidableEq

/-- Modelled from the spec: one cache entry per `(slot, fork)` key, holding
the lazily built artifacts; a field that has not been built yet is `none`.
The fork is fixed throughout a run, so the key reduces to the slot, and
calls are modelled within one TTL window (an expired entry behaves like a
missing one). -/

structure CacheEntry where
  tlr : Option (List Root)
  vtree : Option (List Root)
deriving DecidableEq

/-- The cache, as an association list from slot keys to entries; inserting
conses a fresh binding, which shadows any older binding for the same key. -/

abbrev Cache := List (Nat × CacheEntry)

/-- First entry bound to `slot`, if any. -/

def lookupEntry : Cache → Nat → Option CacheEntry
  | [], _ => none
  | (s, e) :: rest, slot => if s = slot then some e else lookupEntry rest slot

/-- Modelled from the spec: the fork-registry constant
`beacon.ValidatorListMerkleSubtreeNumLayers`: the validator list has
capacity `2 ^ 40`, so the subtree below the length mix-in has 40 layers. -/

def ValidatorListMerkleSubtreeNumLayers : Nat := 40

/-- Modelled from the spec: the fork-registry constant
`beacon.ValidatorListIndex`, the field position of `validators` among the
top-level fields of the beacon state container. -/

def ValidatorListIndex : Nat := 11

/-- Modelled from the spec: the least `k` with `n ≤ 2 ^ k`, i.e.
`ceil(log2 n)`, the depth of the padded top-level tree. -/

def ceilLog2 (n : Nat) : Nat :=
  (((List.range (n + 1)).filter (fun k => n ≤ 2 ^ k)).headD n)

/-- Modelled from the spec: the pubkey leaf of the validator container,
`sha256(pubkey_48 ++ zero_16)` (SSZ `Vector[byte, 48]` packing). -/

def pubkeyLeaf (sha : Bytes → Root) (v : Validator) : Root :=
  sha (v.publicKey ++ List.replicate 16 0)

/-- Modelled from the spec: the eight 32-byte leaves of the validator
container, in the fixed SSZ field order. -/

def validatorLeaves (sha : Bytes → Root) (v : Validator) : List Root :=
  [pubkeyLeaf sha v,
   v.withdrawalCredentials,
   packU64LE v.effectiveBalance,
   packBool v.slashed,
   packU64LE v.activationEligibilityEpoch,
   packU64LE v.activationEpoch,
   packU64LE v.exitEpoch,
   packU64LE v.withdrawableEpoch]

/-- Modelled from the spec: hash-tree-root of a validator, the depth-3
merkle root over its eight leaves. -/

def hashTreeRootValidator (sha : Bytes → Root) (v : Validator) : Root :=
  merkleNode sha (validatorLeaves sha v) 3 0

/-- Modelled from the spec: `ConvertValidatorToValidatorFields` returns the
eight raw 32-byte field chunks verbatim, in the hashing field order. -/

def ConvertValidatorToValidatorFields (sha : Bytes → Root) (v : Validator) : List Bytes32 :=
  validatorLeaves sha v

/-- Modelled from the spec: `epp.ComputeValidatorTree` builds (or fetches
from the cache, keyed by slot) the validator subtree, represented by its
leaf layer `validator_root[i] = hash_tree_root(Validator[i])`; every
higher layer is determined from it by `merkleNode`. -/

def ComputeValidatorTree (sha : Bytes → Root) (slot : Nat)
    (validators : List Validator) (cache : Cache) :
    Except Err (List Root) × Cache :=
  match lookupEntry cache slot with
  | some e =>
    match e.vtree with
    | some t => (.ok t, cache)
    | none =>
      let t := validators.map (hashTreeRootValidator sha)
      (.ok t, (slot, ⟨e.tlr, some t⟩) :: cache)
  | none =>
    let t := validators.map (hashTreeRootValidator sha)
    (.ok t, (slot, ⟨none, some t⟩) :: cache)

/-- Embedded from the source: `ProveValidatorAgainstValidatorList` builds
the validator tree, extracts the 40-layer authentication path of the
requested leaf, and appends the little-endian validator-list length. -/

def ProveValidatorAgainstValidatorList (sha : Bytes → Root) (slot : Nat)
    (validators : List Validator) (cache : Cache) (validatorIndex : Nat) :
    Except Err Proof × Cache :=
  match ComputeValidatorTree sha slot validators cache with
  | (.error e, c) => (.error e, c)
  | (.ok validatorTree, c) =>
    match ComputeMerkleProofFromTree sha validatorTree validatorIndex
        ValidatorListMerkleSubtreeNumLayers with
    | .error e => (.error e, c)
    | .ok p =>
      let validatorListLenLE := BigToLittleEndian validators.length
      (.ok (p ++ [validatorListLenLE]), c)

/-- Modelled from the spec: `beacon.ProveBeaconTopLevelRootAgainstBeaconState`,
the authentication path of field position `index` inside the state
container's top-level tree, padded to depth `ceil(log2 num_fields)`. -/

def ProveBeaconTopLevelRootAgainstBeaconState (sha : Bytes → Root)
    (tlr : BeaconStateTopLevelRoots) (index : Nat) : Except Err Proof :=
  ComputeMerkleProofFromTree sha tlr.roots index (ceilLog2 tlr.roots.length)

/-- Embedded from the source: `ProveValidatorAgainstBeaconState` gets the
top-level path for the validators field, then the in-list validator proof,
and returns `validatorProof ++ validatorListProof` (leaf-first). -/

def ProveValidatorAgainstBeaconState (sha : Bytes → Root) (slot : Nat)
    (validators : List Validator) (tlr : BeaconStateTopLevelRoots)
    (cache : Cache) (validatorIndex : Nat) : Except Err Proof × Cache :=
  match ProveBeaconTopLevelRootAgainstBeaconState sha tlr ValidatorListIndex with
  | .error e => (.error e, cache)
  | .ok validatorListProof =>
    match ProveValidatorAgainstValidatorList sha slot validators cache validatorIndex with
    | (.error e, c) => (.error e, c)
    | (.ok validatorProof, c) => (.ok (validatorProof ++ validatorListProof), c)

/-- Modelled from the spec: the five header leaves in fixed order, before
zero-padding the depth-3 tree. -/

def blockHeaderLeaves (h : BeaconBlockHeader) : List Root :=
  [packU64LE h.slot, packU64LE h.proposerIndex, h.parentRoot, h.stateRoot, h.bodyRoot]

/-- Field position of `state_root` inside the block header container. -/

def StateRootIndex : Nat := 3

/-- Modelled from the spec: `beacon.ProveStateRootAgainstBlockHeader`, the
three siblings along the path from the `state_root` leaf (index 3) to the
header root. -/

def ProveStateRootAgainstBlockHeader (sha : Bytes → Root)
    (h : BeaconBlockHeader) : Except Err Proof :=
  ComputeMerkleProofFromTree sha (blockHeaderLeaves h) StateRootIndex 3

/-- Modelled from the spec: `epp.ComputeBeaconStateTopLevelRoots` yields the
per-field hash-tree-roots of the state container, consulting the cache
keyed by the state's slot; the per-field SSZ merkleization itself (over
the dozens of fork-dependent field types) is abstracted as the parameter
`tlrFields`. -/

def ComputeBeaconStateTopLevelRoots
    (tlrFields : VersionedBeaconState → Except Err (List Root))
    (state : VersionedBeaconState) (cache : Cache) :
    Except Err BeaconStateTopLevelRoots × Cache :=
  match state.slotRes with
  | .error e => (.error e, cache)
  | .ok slot =>
    match lookupEntry cache slot with
    | some e =>
      match e.tlr with
      | some r => (.ok ⟨r⟩, cache)
      | none =>
        match tlrFields state with
        | .error err => (.error err, cache)
        | .ok r => (.ok ⟨r⟩, (slot, ⟨some r, e.vtree⟩) :: cache)
    | none =>
      match tlrFields state with
      | .error err => (.error err, cache)
      | .ok r => (.ok ⟨r⟩, (slot, ⟨some r, none⟩) :: cache)

/-- Modelled from the spec: `GetSlotTimestamp` is the network genesis
timestamp plus `slot × 12` seconds, for the slot being proved (the block
header's slot; the state argument of the source signature is kept). -/

def GetSlotTimestamp (genesisTime : Nat) (_state : VersionedBeaconState)
    (header : BeaconBlockHeader) : Nat :=
  genesisTime + 12 * header.slot

/-- Embedded from the source: the body of the `for i, validatorIndex` loop
of `ProveValidatorContainers`.  Each iteration proves the validator
against the beacon state and then reads `validators[validatorIndex]` to
produce the validator fields; an out-of-range read is a Go runtime slice
panic, modelled as `Err.outOfBoundsAccess`. -/

def proveContainersLoop (sha : Bytes → Root) (slot : Nat)
    (validators : List Validator) (tlr : BeaconStateTopLevelRoots)
    (cache : Cache) :
    List Nat → Except Err (List Proof × List (List Bytes32)) × Cache
  | [] => (.ok ([], []), cache)
  | validatorIndex :: rest =>
    match ProveValidatorAgainstBeaconState sha slot validators tlr cache validatorIndex with
    | (.error e, c) => (.error e, c)
    | (.ok proof, c) =>
      if hv : validatorIndex < validators.length then
        match proveContainersLoop sha slot validators tlr c rest with
        | (.error e, c2) => (.error e, c2)
        | (.ok (ps, fs), c2) =>
          (.ok (proof :: ps,
                ConvertValidatorToValidatorFields sha (validators.get ⟨validatorIndex, hv⟩) :: fs),
           c2)
      else (.error .outOfBoundsAccess, c)

/-- Embedded from the source: `ProveValidatorContainers`.  The Go signature
`(*VerifyValidatorFieldsCallParams, error)` is kept as a pair of options
(at most one of which is set), plus the threaded cache.  The `let err`
followed by a match on it reproduces the source's dead `if err != nil`
check after the plain assignment of `BeaconStateRoot`: on the branch
where `ComputeBeaconStateTopLevelRoots` returned without error, the Go
`err` variable holds nil.  The element-wise copy of `validatorIndices`
into the output is modelled by the list itself. -/

def ProveValidatorContainers (sha : Bytes → Root)
    (tlrFields : VersionedBeaconState → Except Err (List Root))
    (genesisTime : Nat) (oracleBlockHeader : BeaconBlockHeader)
    (oracleBeaconState : VersionedBeaconState) (cache : Cache)
    (validatorIndices : List Nat) :
    Option VerifyValidatorFieldsCallParams × Option Err × Cache :=
  match oracleBeaconState.slotRes with
  | .error e => (none, some e, cache)
  | .ok oracleBeaconStateSlot =>
    match oracleBeaconState.validatorsRes with
    | .error e => (none, some e, cache)
    | .ok oracleBeaconStateValidators =>
      match ComputeBeaconStateTopLevelRoots tlrFields oracleBeaconState cache with
      | (.error e, c) => (none, some e, c)
      | (.ok beaconStateTopLevelRoots, c) =>
        let beaconStateRoot := oracleBlockHeader.stateRoot
        let err : Option Err := none
        match err with
        | some e => (none, some e, c)
        | none =>
          match ProveStateRootAgainstBlockHeader sha oracleBlockHeader with
          | .error e => (none, some e, c)
          | .ok stateRootProof =>
            let oracleTimestamp :=
              GetSlotTimestamp genesisTime oracleBeaconState oracleBlockHeader
            match proveContainersLoop sha oracleBeaconStateSlot
                oracleBeaconStateValidators beaconStateTopLevelRoots c validatorIndices with
            | (.error e, c2) => (none, some e, c2)
            | (.ok (proofs, fields), c2) =>
              (some ⟨oracleTimestamp, ⟨beaconStateRoot, stateRootProof⟩,
                     validatorIndices, proofs, fields⟩,
               none, c2)

/-- The success-path-only variant of `ProveValidatorContainers`, identical
except that the dead error check after the plain assignment is removed. -/

def ProveValidatorContainersSucc (sha : Bytes → Root)
    (tlrFields : VersionedBeaconState → Except Err (List Root))
    (genesisTime : Nat) (oracleBlockHeader : BeaconBlockHeader)
    (oracleBeaconState : VersionedBeaconState) (cache : Cache)
    (validatorIndices : List Nat) :
    Option VerifyValidatorFieldsCallParams × Option Err × Cache :=
  match oracleBeaconState.slotRes with
  | .error e => (none, some e, cache)
  | .ok oracleBeaconStateSlot =>
    match oracleBeaconState.validatorsRes with
    | .error e => (none, some e, cache)
    | .ok oracleBeaconStateValidators =>
      match ComputeBeaconStateTopLevelRoots tlrFields oracleBeaconState cache with
      | (.error e, c) => (none, some e, c)
      | (.ok beaconStateTopLevelRoots, c) =>
        let beaconStateRoot := oracleBlockHeader.stateRoot
        match ProveStateRootAgainstBlockHeader sha oracleBlockHeader with
        | .error e => (none, some e, c)
        | .ok stateRootProof =>
          let oracleTimestamp :=
            GetSlotTimestamp genesisTime oracleBeaconState oracleBlockHeader
          match proveContainersLoop sha oracleBeaconStateSlot
              oracleBeaconStateValidators beaconStateTopLevelRoots c validatorIndices with
          | (.error e, c2) => (none, some e, c2)
          | (.ok (proofs, fields), c2) =>
            (some ⟨oracleTimestamp, ⟨beaconStateRoot, stateRootProof⟩,
                   validatorIndices, proofs, fields⟩,
             none, c2)

/-- Embedded from the source: `ProveValidatorFields`, Go signature
`(*StateRootProof, common.Proof, error)`, with the same dead error check
after the plain assignment of `BeaconStateRoot`. -/

def ProveValidatorFields (sha : Bytes → Root)
    (tlrFields : VersionedBeaconState → Except Err (List Root))
    (oracleBlockHeader : BeaconBlockHeader)
    (oracleBeaconState : VersionedBeaconState) (cache : Cache)
    (validatorIndex : Nat) :
    Option StateRootProof × Option Proof × Option Err × Cache :=
  match oracleBeaconState.slotRes with
  | .error e => (none, none, some e, cache)
  | .ok oracleBeaconStateSlot =>
    match oracleBeaconState.validatorsRes with
    | .error e => (none, none, some e, cache)
    | .ok oracleBeaconStateValidators =>
      match ComputeBeaconStateTopLevelRoots tlrFields oracleBeaconState cache with
      | (.error e, c) => (none, none, some e, c)
      | (.ok beaconStateTopLevelRoots, c) =>
        let beaconStateRoot := oracleBlockHeader.stateRoot
        let err : Option Err := none
        match err with
        | some e => (none, none, some e, c)
        | none =>
          match ProveStateRootAgainstBlockHeader sha oracleBlockHeader with
          | .error e => (none, none, some e, c)
          | .ok stateRootProofSiblings =>
            match ProveValidatorAgainstBeaconState sha oracleBeaconStateSlot
                oracleBeaconStateValidators beaconStateTopLevelRoots c validatorIndex with
            | (.error e, c2) => (none, none, some e, c2)
            | (.ok validatorFieldsProof, c2) =>
              (some ⟨beaconStateRoot, stateRootProofSiblings⟩,
               some validatorFieldsProof, none, c2)

/-- The success-path-only variant of `ProveValidatorFields`, identical
except that the dead error check is removed. -/

def ProveValidatorFieldsSucc (sha : Bytes → Root)
    (tlrFields : VersionedBeaconState → Except Err (List Root))
    (oracleBlockHeader : BeaconBlockHeader)
    (oracleBeaconState : VersionedBeaconState) (cache : Cache)
    (validatorIndex : Nat) :
    Option StateRootProof × Option Proof × Option Err × Cache :=
  match oracleBeaconState.slotRes with
  | .error e => (none, none, some e, cache)
  | .ok oracleBeaconStateSlot =>
    match oracleBeaconState.validatorsRes with
    | .error e => (none, none, some e, cache)
    | .ok oracleBeaconStateValidators =>
      match ComputeBeaconStateTopLevelRoots tlrFields oracleBeaconState cache with
      | (.error e, c) => (none, none, some e, c)
      | (.ok beaconStateTopLevelRoots, c) =>
        let beaconStateRoot := oracleBlockHeader.stateRoot
        match ProveStateRootAgainstBlockHeader sha oracleBlockHeader with
        | .error e => (none, none, some e, c)
        | .ok stateRootProofSiblings =>
          match ProveValidatorAgainstBeaconState sha oracleBeaconStateSlot
              oracleBeaconStateValidators beaconStateTopLevelRoots c validatorIndex with
          | (.error e, c2) => (none, none, some e, c2)
          | (.ok validatorFieldsProof, c2) =>
            (some ⟨beaconStateRoot, stateRootProofSiblings⟩,
             some validatorFieldsProof, none, c2)

/-! Embeddings of `cli/core/utils.go`. -/

/-- Status constants from `cli/core/utils.go`. -/

def ValidatorStatusInactive : Nat := 0

/-- Status constant `ValidatorStatusActive`. -/

def ValidatorStatusActive : Nat := 1

/-- Status constant `ValidatorStatusWithdrawn`. -/

def ValidatorStatusWithdrawn : Nat := 2

/-- `FAR_FUTURE_EPOCH = math.MaxUint64`. -/

def FAR_FUTURE_EPOCH : Nat := 2 ^ 64 - 1

/-- The `ValidatorWithIndex` pair from `cli/core/utils.go`. -/

structure ValidatorWithIndex where
  validator : Validator
  index : Nat
deriving DecidableEq, Inhabited

/-- The on-chain `onchain.IEigenPodValidatorInfo` record; only the fields
read by the sources under verification are modelled. -/

structure IEigenPodValidatorInfo where
  status : Nat
  lastCheckpointedAt : Nat
deriving DecidableEq, Inhabited

/-- Embedded from the source: `IsAwaitingWithdrawalCredentialProof`. -/

def IsAwaitingWithdrawalCredentialProof (validatorInfo : IEigenPodValidatorInfo)
    (validator : Validator) : Bool :=
  (validatorInfo.status == ValidatorStatusInactive)
    && (validator.exitEpoch == FAR_FUTURE_EPOCH)
    && (validator.activationEpoch != FAR_FUTURE_EPOCH)

/-- The 16 zero bytes appended to the 48-byte pubkey before hashing
(`zeroes` in `GetOnchainValidatorInfo`). -/

def zeroes16 : Bytes := List.replicate 16 0

/-- Embedded from the source: the pubkey hash computed inside
`GetOnchainValidatorInfo`: `sha256.Sum256(append(pubkey, zeroes...))`. -/

def pubKeyHashOf (sha : Bytes → Root) (v : Validator) : Root :=
  sha (v.publicKey ++ zeroes16)

/-- Embedded from the source: `GetOnchainValidatorInfo` hashes each
validator's pubkey and looks the hash up in the on-chain mapping; the
contract read `eigenPod.ValidatorPubkeyHashToInfo` is external and is
abstracted as the parameter `fetchInfo`. -/

def GetOnchainValidatorInfo (sha : Bytes → Root)
    (fetchInfo : Root → Except Err IEigenPodValidatorInfo) :
    List ValidatorWithIndex → Except Err (List IEigenPodValidatorInfo)
  | [] => .ok []
  | vwi :: rest =>
    let pubKeyHash := pubKeyHashOf sha vwi.validator
    match fetchInfo pubKeyHash with
    | .error _ => .error .fetchFailed
    | .ok info =>
      match GetOnchainValidatorInfo sha fetchInfo rest with
      | .error e => .error e
      | .ok infos => .ok (info :: infos)

/-- Embedded from the source: the filtering loop of
`SelectAwaitingCredentialValidators` (the on-chain info fetch that
precedes it in the source is factored out: the infos arrive as an
argument, positionally matched with the validators as in the Go loop). -/

def SelectAwaitingCredentialValidators (validators : List ValidatorWithIndex)
    (validatorInfos : List IEigenPodValidatorInfo) : List ValidatorWithIndex :=
  (List.range validators.length).foldl
    (fun acc i =>
      let validator := validators.getD i default
      let validatorInfo := validatorInfos.getD i default
      if (validatorInfo.status == ValidatorStatusInactive)
          && (validator.validator.exitEpoch == FAR_FUTURE_EPOCH)
          && (validator.validator.activationEpoch != FAR_FUTURE_EPOCH)
      then acc ++ [validator] else acc)
    []

/-- The `core.Validator` record of the CLI (its declaration is outside the
available sources; only the fields read by `SortByStatus` are modelled:
`Status`, `IsAwaitingActivationQueue` and `Index`). -/

structure CoreValidator where
  status : Nat
  isAwaitingActivationQueue : Bool
  index : Nat
deriving DecidableEq, Inhabited

/-- Ascending order on `CoreValidator.Index` (the comparator passed to
`sort.Slice`, weakened from `<` to its reflexive closure: `sort.Slice` is
unspecified on ties, and any sorted permutation models it). -/

def indexLE (a b : CoreValidator) : Prop := a.index ≤ b.index

instance : DecidableRel indexLE := fun a b => Nat.decLe a.index b.index

instance : IsTotal CoreValidator indexLE := ⟨fun a b => Nat.le_total a.index b.index⟩

instance : IsTrans CoreValidator indexLE := ⟨fun _ _ _ => Nat.le_trans⟩

/-- Embedded from the source: the switch statement of `SortByStatus`,
folded over the map's iteration sequence; validators whose status is none
of the three known constants fall through and are dropped. -/

def sortByStatusPartition (validators : List (String × CoreValidator)) :
    List CoreValidator × List CoreValidator × List CoreValidator × List CoreValidator :=
  validators.foldl
    (fun acc kv =>
      let validator := kv.2
      if validator.status == ValidatorStatusInactive then
        if validator.isAwaitingActivationQueue then
          (acc.1 ++ [validator], acc.2.1, acc.2.2.1, acc.2.2.2)
        else
          (acc.1, acc.2.1 ++ [validator], acc.2.2.1, acc.2.2.2)
      else if validator.status == ValidatorStatusActive then
        (acc.1, acc.2.1, acc.2.2.1 ++ [validator], acc.2.2.2)
      else if validator.status == ValidatorStatusWithdrawn then
        (acc.1, acc.2.1, acc.2.2.1, acc.2.2.2 ++ [validator])
      else acc)
    ([], [], [], [])

/-- Embedded from the source: `SortByStatus`.  A Go map iterates in an
unspecified order, so the input map is modelled by its iteration
sequence, an association list.  The three `sort.Slice` calls (an
unstable sort by ascending `Index`) are modelled by `insertionSort`
under `indexLE`, a sorted permutation as any `sort.Slice` result is;
the awaiting-activation-queue list is returned without sorting. -/

def SortByStatus (validators : List (String × CoreValidator)) :
    List CoreValidator × List CoreValidator × List CoreValidator × List CoreValidator :=
  match sortByStatusPartition validators with
  | (awaitingActivationQueueValidators, inactiveValidators, activeValidators,
     withdrawnValidators) =>
    (awaitingActivationQueueValidators,
     List.insertionSort indexLE inactiveValidators,
     List.insertionSort indexLE activeValidators,
     List.insertionSort indexLE withdrawnValidators)



/-! Concrete toy instantiations used by the witness and counterexample
theorems: a cheap stand-in hash (the structural theorems hold for every
`sha`, so any instantiation is a valid witness) and a tiny state. -/

/-- A concrete stand-in for the abstract SHA-256 primitive. -/

def toySha : Bytes → Root := fun l => [l.length % 97, (l.foldl (fun a b => a + 2 * b) 3) % 991]

/-- A concrete validator. -/

def v0 : Validator :=
  ⟨List.replicate 48 1, List.replicate 32 2, 32, false, 0, 1,
   FAR_FUTURE_EPOCH, FAR_FUTURE_EPOCH⟩

/-- A one-element validator list. -/

def vals0 : List Validator := [v0]

/-- Concrete top-level roots with 16 fields (top-level depth 4). -/

def tlr0 : BeaconStateTopLevelRoots := ⟨List.replicate 16 zeroRoot⟩

/-- A concrete block header at slot 100. -/

def header0 : BeaconBlockHeader :=
  ⟨100, 7, List.replicate 32 3, List.replicate 32 4, List.replicate 32 5⟩

/-- A concrete beacon state whose accessors succeed. -/

def state0 : VersionedBeaconState := ⟨.ok 100, .ok vals0⟩

/-- A concrete stand-in for the abstracted per-field merkleizer. -/

def toyTLRFields : VersionedBeaconState → Except Err (List Root) :=
  fun _ => .ok (List.replicate 16 zeroRoot)







/-- The proof returned at the concrete C6 counterexample input. -/

def c6proof : Proof :=
  match (ProveValidatorAgainstBeaconState toySha 100 vals0 tlr0 [] 0).1 with
  | .ok p => p
  | .error _ => []








/-- Characterization used to state claim C10: the inactive validators that
are awaiting the activation queue, in input order. -/

def awaitingQueueOf (validators : List (String × CoreValidator)) : List CoreValidator :=
  (validators.map Prod.snd).filter
    (fun v => (v.status == ValidatorStatusInactive) && v.isAwaitingActivationQueue)

/-- Characterization used to state claim C10: the plain inactive validators,
in input order. -/

def inactiveOf (validators : List (String × CoreValidator)) : List CoreValidator :=
  (validators.map Prod.snd).filter
    (fun v => (v.status == ValidatorStatusInactive) && !v.isAwaitingActivationQueue)

/-- Characterization used to state claim C10: the active validators, in
input order. -/

def activeOf (validators : List (String × CoreValidator)) : List CoreValidator :=
  (validators.map Prod.snd).filter (fun v => v.status == ValidatorStatusActive)

/-- Characterization used to state claim C10: the withdrawn validators, in
input order. -/

def withdrawnOf (validators : List (String × CoreValidator)) : List CoreValidator :=
  (validators.map Prod.snd).filter (fun v => v.status == ValidatorStatusWithdrawn)



/-! Cache-stability lemmas: re-running any embedded operation on the cache
it produced yields the same outcome and leaves the cache unchanged. -/

/-- The cache holds a validator-subtree entry for `slot`. -/

def vtreeCached (cache : Cache) (slot : Nat) : Prop :=
  ∃ e, lookupEntry cache slot = some e ∧ e.vtree.isSome

/-- The cache holds top-level roots `r` for `slot`. -/

def tlrCachedWith (cache : Cache) (slot : Nat) (r : List Root) : Prop :=
  ∃ e, lookupEntry cache slot = some e ∧ e.tlr = some r











/-! Theorems. -/

theorem merkleNode_of_le (sha : Bytes → Root) (L : List Root) (k i : Nat)
    (h : L.length ≤ 2 ^ k * i) : merkleNode sha L k i = zeroSubtreeRoot sha k := by
  cases k with
  | zero =>
    simp only [merkleNode, zeroSubtreeRoot]
    exact List.getD_eq_default _ _ (by simpa using h)
  | succ k => simp [merkleNode, h]

/-- Sanity check of the zero-subtree memoization: every internal node is the
hash of its two children, also in the shortcut branch. -/
theorem merkleNode_succ (sha : Bytes → Root) (L : List Root) (k i : Nat) :
    merkleNode sha L (k + 1) i
      = hashPair sha (merkleNode sha L k (2 * i)) (merkleNode sha L k (2 * i + 1)) := by
  by_cases h : L.length ≤ 2 ^ (k + 1) * i
  · have h1 : L.length ≤ 2 ^ k * (2 * i) := by
      calc L.length ≤ 2 ^ (k + 1) * i := h
      _ = 2 ^ k * (2 * i) := by ring
    have h2 : L.length ≤ 2 ^ k * (2 * i + 1) := by
      refine le_trans h1 (Nat.mul_le_mul_left _ (by omega))
    rw [merkleNode_of_le sha L k _ h1, merkleNode_of_le sha L k _ h2]
    simp [merkleNode, h, zeroSubtreeRoot]
  · simp [merkleNode, h]

theorem lookupEntry_cons_self (e : CacheEntry) (slot : Nat) (c : Cache) :
    lookupEntry ((slot, e) :: c) slot = some e := by simp [lookupEntry]

theorem leBytes_length (k n : Nat) : (leBytes k n).length = k := by
  induction k generalizing n with
  | zero => rfl
  | succ k ih => simp [leBytes, ih]

theorem decodeLE_leBytes (k n : Nat) (h : n < 256 ^ k) :
    decodeLE (leBytes k n) = n := by
  induction k generalizing n with
  | zero => simp at h; simp [h, leBytes, decodeLE]
  | succ k ih =>
    have hdiv : n / 256 < 256 ^ k := by
      rw [Nat.div_lt_iff_lt_mul (by norm_num : 0 < 256)]
      calc n < 256 ^ (k + 1) := h
      _ = 256 ^ k * 256 := by ring
    simp only [leBytes, decodeLE, ih (n / 256) hdiv]
    omega

theorem leBytes_add (a b n : Nat) :
    leBytes (a + b) n = leBytes a n ++ leBytes b (n / 256 ^ a) := by
  induction a generalizing n with
  | zero => simp [leBytes]
  | succ a ih =>
    have : a + 1 + b = (a + b) + 1 := by omega
    rw [this]
    simp only [leBytes, ih (n / 256), List.cons_append]
    have : n / 256 / 256 ^ a = n / 256 ^ (a + 1) := by
      rw [Nat.div_div_eq_div_mul, pow_succ]
      ring_nf
    rw [this]

theorem BigToLittleEndian_length (n : Nat) : (BigToLittleEndian n).length = 32 :=
  leBytes_length 32 n

theorem decodeU64LE_BigToLittleEndian (n : Nat) (h : n < 2 ^ 64) :
    decodeU64LE (BigToLittleEndian n) = n := by
  have h256 : (256 : Nat) ^ 8 = 2 ^ 64 := by norm_num
  have hsplit : BigToLittleEndian n = leBytes 8 n ++ leBytes 24 (n / 256 ^ 8) := by
    have : (32 : Nat) = 8 + 24 := by norm_num
    rw [BigToLittleEndian, this, leBytes_add]
  rw [decodeU64LE, hsplit, List.take_append_of_le_length (by rw [leBytes_length]),
    List.take_of_length_le (by rw [leBytes_length])]
  exact decodeLE_leBytes 8 n (by omega)

theorem BigToLittleEndian_eq_packU64LE (n : Nat) (h : n < 2 ^ 64) :
    BigToLittleEndian n = packU64LE n := by
  have h256 : (256 : Nat) ^ 8 = 2 ^ 64 := by norm_num
  have hz : n / 256 ^ 8 = 0 := Nat.div_eq_of_lt (by omega)
  have hzero : ∀ k, leBytes k 0 = List.replicate k 0 := by
    intro k
    induction k with
    | zero => rfl
    | succ k ih => simp [leBytes, ih, List.replicate_succ]
  have : (32 : Nat) = 8 + 24 := by norm_num
  rw [BigToLittleEndian, this, leBytes_add, hz, hzero, packU64LE]

theorem ComputeValidatorTree_ok (sha : Bytes → Root) (slot : Nat)
    (validators : List Validator) (cache : Cache) :
    ∃ t c', ComputeValidatorTree sha slot validators cache = (.ok t, c') := by
  unfold ComputeValidatorTree
  rcases hl : lookupEntry cache slot with _ | e
  · exact ⟨_, _, rfl⟩
  · rcases hv : e.vtree with _ | t
    · exact ⟨validators.map (hashTreeRootValidator sha),
        (slot, ⟨e.tlr, some (validators.map (hashTreeRootValidator sha))⟩) :: cache,
        by simp [hv]⟩
    · exact ⟨t, cache, by simp [hv]⟩

theorem ComputeMerkleProofFromTree_ok (sha : Bytes → Root) (tree : List Root)
    (index numLayers : Nat) (h : index < 2 ^ numLayers) :
    ComputeMerkleProofFromTree sha tree index numLayers
      = .ok ((List.range numLayers).map
          (fun k => merkleNode sha tree k ((index >>> k) ^^^ 1))) := by
  simp [ComputeMerkleProofFromTree, h]

theorem ComputeMerkleProofFromTree_err (sha : Bytes → Root) (tree : List Root)
    (index numLayers : Nat) (h : ¬ index < 2 ^ numLayers) :
    ComputeMerkleProofFromTree sha tree index numLayers = .error .indexOutOfRange := by
  simp [ComputeMerkleProofFromTree, h]

theorem ComputeMerkleProofFromTree_ok_length (sha : Bytes → Root)
    (tree : List Root) (index numLayers : Nat) (p : Proof)
    (h : ComputeMerkleProofFromTree sha tree index numLayers = .ok p) :
    p.length = numLayers := by
  by_cases hi : index < 2 ^ numLayers
  · rw [ComputeMerkleProofFromTree_ok sha tree index numLayers hi] at h
    cases h
    simp
  · rw [ComputeMerkleProofFromTree_err sha tree index numLayers hi] at h
    cases h

/-- Characterization of a successful `ProveValidatorAgainstValidatorList`
call: the result is a 40-element leaf path followed by the single
little-endian length chunk. -/
theorem ProveValidatorAgainstValidatorList_ok (sha : Bytes → Root) (slot : Nat)
    (validators : List Validator) (cache : Cache) (validatorIndex : Nat)
    (vp : Proof) (c : Cache)
    (h : ProveValidatorAgainstValidatorList sha slot validators cache validatorIndex
      = (.ok vp, c)) :
    ∃ lp : Proof, lp.length = ValidatorListMerkleSubtreeNumLayers ∧
      vp = lp ++ [BigToLittleEndian validators.length] := by
  unfold ProveValidatorAgainstValidatorList at h
  obtain ⟨t, c', hct⟩ := ComputeValidatorTree_ok sha slot validators cache
  rw [hct] at h
  dsimp only at h
  rcases hm : ComputeMerkleProofFromTree sha t validatorIndex
      ValidatorListMerkleSubtreeNumLayers with e | p
  · rw [hm] at h; cases h
  · rw [hm] at h
    simp only [Prod.mk.injEq] at h
    obtain ⟨h1, h2⟩ := h
    cases h1
    exact ⟨p, ComputeMerkleProofFromTree_ok_length sha t _ _ p hm, rfl⟩

/-- Decomposition of a successful `ProveValidatorAgainstBeaconState` call
into its three layers (shared helper). -/
theorem ProveValidatorAgainstBeaconState_ok (sha : Bytes → Root) (slot : Nat)
    (validators : List Validator) (tlr : BeaconStateTopLevelRoots)
    (cache : Cache) (validatorIndex : Nat) (proof : Proof) (c : Cache)
    (h : ProveValidatorAgainstBeaconState sha slot validators tlr cache validatorIndex
      = (.ok proof, c)) :
    ∃ lp tp : Proof,
      lp.length = ValidatorListMerkleSubtreeNumLayers ∧
      ProveValidatorAgainstValidatorList sha slot validators cache validatorIndex
        = (.ok (lp ++ [BigToLittleEndian validators.length]), c) ∧
      ProveBeaconTopLevelRootAgainstBeaconState sha tlr ValidatorListIndex = .ok tp ∧
      proof = lp ++ [BigToLittleEndian validators.length] ++ tp := by
  unfold ProveValidatorAgainstBeaconState at h
  rcases htp : ProveBeaconTopLevelRootAgainstBeaconState sha tlr ValidatorListIndex
    with e | tp
  · rw [htp] at h; cases h
  · rw [htp] at h
    dsimp only at h
    rcases hvp : ProveValidatorAgainstValidatorList sha slot validators cache validatorIndex
      with ⟨(e | vp), c1⟩
    · rw [hvp] at h; cases h
    · rw [hvp] at h
      simp only [Prod.mk.injEq, Except.ok.injEq] at h
      obtain ⟨h1, h2⟩ := h
      subst h1
      subst h2
      obtain ⟨lp, hlen, hlp⟩ :=
        ProveValidatorAgainstValidatorList_ok sha slot validators cache validatorIndex
          vp c1 hvp
      subst hlp
      exact ⟨lp, tp, hlen, rfl, rfl, by simp⟩

/-- Claim C1.  For every beacon state slot, validator list, top-level
roots, cache and validator index, a proof returned by
`ProveValidatorAgainstBeaconState` is the concatenation in leaf-first
order of the validator leaf authentication path with its appended length
sibling (exactly the result of `ProveValidatorAgainstValidatorList`)
followed by the top-level authentication path for the validators field:
`leaf_proof ++ [length_sibling] ++ top_level_proof`, never the reverse. -/
theorem claim_C1_proof_concatenation_order (sha : Bytes → Root) (slot : Nat)
    (validators : List Validator) (tlr : BeaconStateTopLevelRoots)
    (cache : Cache) (validatorIndex : Nat) (proof : Proof) (c : Cache)
    (h : ProveValidatorAgainstBeaconState sha slot validators tlr cache validatorIndex
      = (.ok proof, c)) :
    ∃ lp tp : Proof,
      ProveValidatorAgainstValidatorList sha slot validators cache validatorIndex
        = (.ok (lp ++ [BigToLittleEndian validators.length]), c) ∧
      ProveBeaconTopLevelRootAgainstBeaconState sha tlr ValidatorListIndex = .ok tp ∧
      proof = lp ++ [BigToLittleEndian validators.length] ++ tp := by
  obtain ⟨lp, tp, _, hvp, htp, hp⟩ :=
    ProveValidatorAgainstBeaconState_ok sha slot validators tlr cache validatorIndex
      proof c h
  exact ⟨lp, tp, hvp, htp, hp⟩

/-- Witness for claim C1 at a concrete input. -/
theorem claim_C1_proof_concatenation_order_witness :
    ∃ lp tp : Proof,
      ProveValidatorAgainstValidatorList toySha 100 vals0 [] 0
        = (.ok (lp ++ [BigToLittleEndian vals0.length]),
           (ProveValidatorAgainstBeaconState toySha 100 vals0 tlr0 [] 0).2) ∧
      ProveBeaconTopLevelRootAgainstBeaconState toySha tlr0 ValidatorListIndex = .ok tp ∧
      (match (ProveValidatorAgainstBeaconState toySha 100 vals0 tlr0 [] 0).1 with
        | .ok p => p
        | .error _ => [])
        = lp ++ [BigToLittleEndian vals0.length] ++ tp :=
  claim_C1_proof_concatenation_order toySha 100 vals0 tlr0 [] 0
    (match (ProveValidatorAgainstBeaconState toySha 100 vals0 tlr0 [] 0).1 with
      | .ok p => p
      | .error _ => [])
    (ProveValidatorAgainstBeaconState toySha 100 vals0 tlr0 [] 0).2
    (by decide)

/-- Claim C2.  For every validator list and in-range validator index, the
single 32-byte chunk appended by `ProveValidatorAgainstValidatorList`
after the 40-element leaf authentication path encodes the actual element
count of the validator list (`len(validators)`, not the list capacity) as
a little-endian integer in a 32-byte chunk. -/
theorem claim_C2_length_sibling_encodes_count (sha : Bytes → Root) (slot : Nat)
    (validators : List Validator) (cache : Cache) (validatorIndex : Nat)
    (hidx : validatorIndex < validators.length)
    (hcap : validators.length ≤ 2 ^ ValidatorListMerkleSubtreeNumLayers) :
    ∃ (lp : Proof) (c : Cache),
      ProveValidatorAgainstValidatorList sha slot validators cache validatorIndex
        = (.ok (lp ++ [BigToLittleEndian validators.length]), c) ∧
      lp.length = ValidatorListMerkleSubtreeNumLayers ∧
      (BigToLittleEndian validators.length).length = 32 ∧
      (validators.length < 2 ^ 64 →
        decodeU64LE (BigToLittleEndian validators.length) = validators.length) := by
  have hcap2 : validatorIndex < 2 ^ ValidatorListMerkleSubtreeNumLayers :=
    lt_of_lt_of_le hidx hcap
  obtain ⟨t, c', hct⟩ := ComputeValidatorTree_ok sha slot validators cache
  refine ⟨(List.range ValidatorListMerkleSubtreeNumLayers).map
      (fun k => merkleNode sha t k ((validatorIndex >>> k) ^^^ 1)), c', ?_, by simp,
      BigToLittleEndian_length _, fun h64 => decodeU64LE_BigToLittleEndian _ h64⟩
  unfold ProveValidatorAgainstValidatorList
  rw [hct]
  dsimp only
  rw [ComputeMerkleProofFromTree_ok sha t validatorIndex _ hcap2]

/-- Witness for claim C2 at a concrete input. -/
theorem claim_C2_length_sibling_encodes_count_witness :
    ∃ (lp : Proof) (c : Cache),
      ProveValidatorAgainstValidatorList toySha 100 vals0 [] 0
        = (.ok (lp ++ [BigToLittleEndian vals0.length]), c) ∧
      lp.length = ValidatorListMerkleSubtreeNumLayers ∧
      (BigToLittleEndian vals0.length).length = 32 ∧
      (vals0.length < 2 ^ 64 →
        decodeU64LE (BigToLittleEndian vals0.length) = vals0.length) :=
  claim_C2_length_sibling_encodes_count toySha 100 vals0 [] 0
    (by decide) (by decide)

/-- Claim C3.  For every validator, the pubkey hash computed for on-chain
lookup inside `GetOnchainValidatorInfo` equals SHA-256 of the 48-byte
public key concatenated with exactly 16 zero bytes (a 64-byte preimage),
which is exactly the SSZ `Vector[byte, 48]` leaf-pair hashing: the hash
of the pair of 32-byte chunks `pubkey[0..32]` and `pubkey[32..48] ++
zero_16`. -/
theorem claim_C3_pubkey_hash_preimage (sha : Bytes → Root) (v : Validator)
    (h48 : v.publicKey.length = 48) :
    pubKeyHashOf sha v = sha (v.publicKey ++ List.replicate 16 0) ∧
    (v.publicKey ++ zeroes16).length = 64 ∧
    pubKeyHashOf sha v
      = hashPair sha (v.publicKey.take 32) (v.publicKey.drop 32 ++ List.replicate 16 0) ∧
    (v.publicKey.take 32).length = 32 ∧
    (v.publicKey.drop 32 ++ List.replicate 16 0).length = 32 := by
  refine ⟨rfl, by simp [zeroes16, h48], ?_, by simp [h48], by simp [h48]⟩
  unfold pubKeyHashOf hashPair zeroes16
  rw [← List.append_assoc, List.take_append_drop]

/-- Witness for claim C3 at a concrete input. -/
theorem claim_C3_pubkey_hash_preimage_witness :
    pubKeyHashOf toySha v0 = toySha (v0.publicKey ++ List.replicate 16 0) ∧
    (v0.publicKey ++ zeroes16).length = 64 ∧
    pubKeyHashOf toySha v0
      = hashPair toySha (v0.publicKey.take 32) (v0.publicKey.drop 32 ++ List.replicate 16 0) ∧
    (v0.publicKey.take 32).length = 32 ∧
    (v0.publicKey.drop 32 ++ List.replicate 16 0).length = 32 :=
  claim_C3_pubkey_hash_preimage toySha v0 (by decide)

/-- Counterexample to claim C6 as stated: for the `ValidatorFieldsProof`
produced by `ProveValidatorAgainstBeaconState`, the penultimate sibling is
an inner node of the top-level tree, not the length chunk, so it does not
decode (little-endian u64) to the element count: here the 45-element proof
has the length chunk at position 40, the penultimate sibling decodes to
69380, and the element count is 1. -/
theorem claim_C6_counterexample :
    (ProveValidatorAgainstBeaconState toySha 100 vals0 tlr0 [] 0).1 = .ok c6proof ∧
    c6proof.length = 45 ∧
    decodeU64LE (c6proof.getD (c6proof.length - 2) zeroRoot) = 69380 ∧
    vals0.length = 1 := by
  refine ⟨by decide, by decide, by decide, rfl⟩

/-- Claim C6, amended.  For every list proof returned (e.g. the
`ValidatorFieldsProof` produced by `ProveValidatorAgainstBeaconState`),
the sibling at position 40 — the last sibling of the list-level proof,
immediately after the 40-element leaf path and immediately before the
top-level path — decodes as a little-endian u64 to the list's element
count.  (It is the penultimate sibling of the overall proof only when the
top-level path has exactly one element.) -/
theorem claim_C6_amended_length_chunk_position (sha : Bytes → Root) (slot : Nat)
    (validators : List Validator) (tlr : BeaconStateTopLevelRoots)
    (cache : Cache) (validatorIndex : Nat) (proof : Proof) (c : Cache)
    (h : ProveValidatorAgainstBeaconState sha slot validators tlr cache validatorIndex
      = (.ok proof, c))
    (h64 : validators.length < 2 ^ 64) :
    decodeU64LE (proof.getD ValidatorListMerkleSubtreeNumLayers zeroRoot)
      = validators.length := by
  obtain ⟨lp, tp, hlen, _, _, hp⟩ :=
    ProveValidatorAgainstBeaconState_ok sha slot validators tlr cache validatorIndex
      proof c h
  subst hp
  rw [List.append_assoc]
  have hgd : (lp ++ ([BigToLittleEndian validators.length] ++ tp)).getD
      ValidatorListMerkleSubtreeNumLayers zeroRoot
        = BigToLittleEndian validators.length := by
    rw [List.getD_eq_getElem?_getD, List.getElem?_append_right (by omega),
      hlen, Nat.sub_self]
    simp
  rw [hgd]
  exact decodeU64LE_BigToLittleEndian _ h64

/-- Witness for the amended claim C6 at a concrete input. -/
theorem claim_C6_amended_length_chunk_position_witness :
    decodeU64LE (c6proof.getD ValidatorListMerkleSubtreeNumLayers zeroRoot)
      = vals0.length :=
  claim_C6_amended_length_chunk_position toySha 100 vals0 tlr0 [] 0 c6proof
    (ProveValidatorAgainstBeaconState toySha 100 vals0 tlr0 [] 0).2
    (by decide) (by decide)

/-- Claim C8.  The `if err != nil` checks immediately following the plain
assignment of `BeaconStateRoot` from the block header's `StateRoot` in
`ProveValidatorFields` and `ProveValidatorContainers` are no-ops: at that
program point the error is always nil (any earlier non-nil error already
caused a return), so the error branch is unreachable and each function is
extensionally equal to its success-path-only variant. -/
theorem claim_C8_dead_error_check_noop (sha : Bytes → Root)
    (tlrFields : VersionedBeaconState → Except Err (List Root))
    (genesisTime : Nat) (header : BeaconBlockHeader)
    (state : VersionedBeaconState) (cache : Cache)
    (validatorIndices : List Nat) (validatorIndex : Nat) :
    ProveValidatorContainers sha tlrFields genesisTime header state cache validatorIndices
      = ProveValidatorContainersSucc sha tlrFields genesisTime header state cache
          validatorIndices ∧
    ProveValidatorFields sha tlrFields header state cache validatorIndex
      = ProveValidatorFieldsSucc sha tlrFields header state cache validatorIndex :=
  ⟨rfl, rfl⟩

/-- Claim C9, auxiliary: the indexed filtering loop, started from an
arbitrary accumulator, appends exactly the predicate-filtered zip of the
two list prefixes. -/
theorem selectAwaiting_foldl_eq (validators : List ValidatorWithIndex)
    (validatorInfos : List IEigenPodValidatorInfo) (n : Nat) :
    ∀ a : List ValidatorWithIndex, n ≤ validators.length → n ≤ validatorInfos.length →
    (List.range n).foldl
      (fun acc i =>
        let validator := validators.getD i default
        let validatorInfo := validatorInfos.getD i default
        if (validatorInfo.status == ValidatorStatusInactive)
            && (validator.validator.exitEpoch == FAR_FUTURE_EPOCH)
            && (validator.validator.activationEpoch != FAR_FUTURE_EPOCH)
        then acc ++ [validator] else acc)
      a
      = a ++ (((validators.take n).zip (validatorInfos.take n)).filter
          (fun p => IsAwaitingWithdrawalCredentialProof p.2 p.1.validator)).map Prod.fst := by
  induction n with
  | zero => intro a _ _; simp
  | succ n ih =>
    intro a hn hn2
    have hn' : n < validators.length := lt_of_lt_of_le (Nat.lt_succ_self n) hn
    have hn2' : n < validatorInfos.length := lt_of_lt_of_le (Nat.lt_succ_self n) hn2
    rw [List.range_succ, List.foldl_append, ih a (le_of_lt hn') (le_of_lt hn2')]
    have htv : validators.take (n + 1) = validators.take n ++ [validators.getD n default] := by
      rw [List.take_succ, List.getD_eq_getElem?_getD, List.getElem?_eq_getElem hn']
      rfl
    have hti : validatorInfos.take (n + 1)
        = validatorInfos.take n ++ [validatorInfos.getD n default] := by
      rw [List.take_succ, List.getD_eq_getElem?_getD, List.getElem?_eq_getElem hn2']
      rfl
    rw [htv, hti, List.zip_append (by simp [Nat.min_eq_left, le_of_lt hn', le_of_lt hn2']),
      List.filter_append, List.map_append]
    simp only [List.foldl_cons, List.foldl_nil, List.zip_cons_cons, List.zip_nil_right,
      List.filter, IsAwaitingWithdrawalCredentialProof]
    rcases hc : (validatorInfos.getD n default).status == ValidatorStatusInactive
        && ((validators.getD n default).validator.exitEpoch == FAR_FUTURE_EPOCH)
        && ((validators.getD n default).validator.activationEpoch != FAR_FUTURE_EPOCH)
      with _ | _
    · simp [hc]
    · simp [hc]

/-- Claim C9.  For every list of validators-with-index and their
corresponding on-chain infos (positionally matched, equal lengths),
`SelectAwaitingCredentialValidators` returns exactly the input validators,
in input order, whose pair satisfies the named predicate
`IsAwaitingWithdrawalCredentialProof` (on-chain status inactive,
`ExitEpoch` equal to `FAR_FUTURE_EPOCH`, `ActivationEpoch` not equal to
`FAR_FUTURE_EPOCH`): the inline filter condition and the named predicate
are the same function. -/
theorem claim_C9_select_awaiting_is_named_predicate_filter
    (validators : List ValidatorWithIndex)
    (validatorInfos : List IEigenPodValidatorInfo)
    (hlen : validators.length = validatorInfos.length) :
    SelectAwaitingCredentialValidators validators validatorInfos
      = ((validators.zip validatorInfos).filter
          (fun p => IsAwaitingWithdrawalCredentialProof p.2 p.1.validator)).map Prod.fst := by
  unfold SelectAwaitingCredentialValidators
  rw [selectAwaiting_foldl_eq validators validatorInfos validators.length []
    (le_refl _) (le_of_eq hlen)]
  rw [List.take_of_length_le (le_refl _), List.take_of_length_le (le_of_eq hlen.symm)]
  simp

/-- Witness for claim C9 at a concrete input: of two validators attached to
infos, exactly the first (inactive, exit far-future, activated) survives. -/
theorem claim_C9_select_awaiting_is_named_predicate_filter_witness :
    SelectAwaitingCredentialValidators
        [⟨v0, 5⟩, ⟨⟨List.replicate 48 9, List.replicate 32 2, 0, false, 0, 0, 0, 0⟩, 6⟩]
        [⟨0, 0⟩, ⟨0, 0⟩]
      = (([(⟨v0, 5⟩ : ValidatorWithIndex),
           ⟨⟨List.replicate 48 9, List.replicate 32 2, 0, false, 0, 0, 0, 0⟩, 6⟩].zip
          [(⟨0, 0⟩ : IEigenPodValidatorInfo), ⟨0, 0⟩]).filter
          (fun p => IsAwaitingWithdrawalCredentialProof p.2 p.1.validator)).map Prod.fst :=
  claim_C9_select_awaiting_is_named_predicate_filter _ _ (by decide)

/-- The switch-statement fold of `SortByStatus` partitions the iteration
sequence into the four filtered sublists, each in input order; validators
with any other status value fall through every case and are dropped. -/
theorem sortByStatusPartition_eq (validators : List (String × CoreValidator)) :
    sortByStatusPartition validators
      = (awaitingQueueOf validators, inactiveOf validators,
         activeOf validators, withdrawnOf validators) := by
  suffices hgen : ∀ acc : List CoreValidator × List CoreValidator ×
      List CoreValidator × List CoreValidator,
      validators.foldl
        (fun acc kv =>
          let validator := kv.2
          if validator.status == ValidatorStatusInactive then
            if validator.isAwaitingActivationQueue then
              (acc.1 ++ [validator], acc.2.1, acc.2.2.1, acc.2.2.2)
            else
              (acc.1, acc.2.1 ++ [validator], acc.2.2.1, acc.2.2.2)
          else if validator.status == ValidatorStatusActive then
            (acc.1, acc.2.1, acc.2.2.1 ++ [validator], acc.2.2.2)
          else if validator.status == ValidatorStatusWithdrawn then
            (acc.1, acc.2.1, acc.2.2.1, acc.2.2.2 ++ [validator])
          else acc)
        acc
        = (acc.1 ++ awaitingQueueOf validators, acc.2.1 ++ inactiveOf validators,
           acc.2.2.1 ++ activeOf validators, acc.2.2.2 ++ withdrawnOf validators) by
    rw [sortByStatusPartition, hgen ([], [], [], [])]
    simp
  induction validators with
  | nil => intro acc; simp [awaitingQueueOf, inactiveOf, activeOf, withdrawnOf]
  | cons kv rest ih =>
    intro acc
    rw [List.foldl_cons, ih]
    by_cases h0 : kv.2.status = 0
    · by_cases hf : kv.2.isAwaitingActivationQueue
      · simp [awaitingQueueOf, inactiveOf, activeOf, withdrawnOf, List.filter, h0, hf,
          ValidatorStatusInactive, ValidatorStatusActive, ValidatorStatusWithdrawn]
      · simp [awaitingQueueOf, inactiveOf, activeOf, withdrawnOf, List.filter, h0, hf,
          ValidatorStatusInactive, ValidatorStatusActive, ValidatorStatusWithdrawn]
    · by_cases h1 : kv.2.status = 1
      · simp [awaitingQueueOf, inactiveOf, activeOf, withdrawnOf, List.filter, h0, h1,
          ValidatorStatusInactive, ValidatorStatusActive, ValidatorStatusWithdrawn]
      · by_cases h2 : kv.2.status = 2
        · simp [awaitingQueueOf, inactiveOf, activeOf, withdrawnOf, List.filter, h0, h1, h2,
            ValidatorStatusInactive, ValidatorStatusActive, ValidatorStatusWithdrawn]
        · have b0 : (kv.2.status == 0) = false := by simp [h0]
          have b1 : (kv.2.status == 1) = false := by simp [h1]
          have b2 : (kv.2.status == 2) = false := by simp [h2]
          simp [awaitingQueueOf, inactiveOf, activeOf, withdrawnOf, List.filter, b0, b1, b2,
            ValidatorStatusInactive, ValidatorStatusActive, ValidatorStatusWithdrawn]

/-- Claim C10.  `SortByStatus` partitions its input: every validator of the
input map (modelled by its iteration sequence) whose status is inactive,
active, or withdrawn appears in exactly one of the four returned lists —
the inactive ones split into awaiting-activation-queue versus plain
inactive by the `IsAwaitingActivationQueue` flag — validators with any
other status value are dropped, the inactive, active, and withdrawn
result lists are permutations of the corresponding input-order sublists
sorted ascending by `Index`, and the awaiting-activation-queue list is
returned unsorted, in input order. -/
theorem claim_C10_sortByStatus_partitions_and_sorts
    (validators : List (String × CoreValidator)) :
    (SortByStatus validators).1 = awaitingQueueOf validators ∧
    List.Perm (SortByStatus validators).2.1 (inactiveOf validators) ∧
    List.Sorted indexLE (SortByStatus validators).2.1 ∧
    List.Perm (SortByStatus validators).2.2.1 (activeOf validators) ∧
    List.Sorted indexLE (SortByStatus validators).2.2.1 ∧
    List.Perm (SortByStatus validators).2.2.2 (withdrawnOf validators) ∧
    List.Sorted indexLE (SortByStatus validators).2.2.2 := by
  rw [SortByStatus, sortByStatusPartition_eq]
  exact ⟨rfl,
    List.perm_insertionSort indexLE _, List.sorted_insertionSort indexLE _,
    List.perm_insertionSort indexLE _, List.sorted_insertionSort indexLE _,
    List.perm_insertionSort indexLE _, List.sorted_insertionSort indexLE _⟩

theorem ComputeValidatorTree_stable (sha : Bytes → Root) (slot : Nat)
    (validators : List Validator) (cache : Cache) (r : Except Err (List Root)) (c' : Cache)
    (h : ComputeValidatorTree sha slot validators cache = (r, c')) :
    ComputeValidatorTree sha slot validators c' = (r, c') := by
  unfold ComputeValidatorTree at h ⊢
  rcases hl : lookupEntry cache slot with _ | e
  · simp only [hl] at h
    simp only [Prod.mk.injEq] at h
    obtain ⟨h1, h2⟩ := h
    subst h1; subst h2
    simp [lookupEntry_cons_self]
  · rcases hv : e.vtree with _ | t
    · simp only [hl, hv] at h
      simp only [Prod.mk.injEq] at h
      obtain ⟨h1, h2⟩ := h
      subst h1; subst h2
      simp [lookupEntry_cons_self]
    · simp only [hl, hv] at h
      simp only [Prod.mk.injEq] at h
      obtain ⟨h1, h2⟩ := h
      subst h1; subst h2
      simp [hl, hv]

theorem ComputeValidatorTree_out_cached (sha : Bytes → Root) (slot : Nat)
    (validators : List Validator) (cache : Cache) (r : Except Err (List Root)) (c' : Cache)
    (h : ComputeValidatorTree sha slot validators cache = (r, c')) :
    vtreeCached c' slot := by
  unfold ComputeValidatorTree at h
  rcases hl : lookupEntry cache slot with _ | e
  · simp only [hl, Prod.mk.injEq] at h
    obtain ⟨_, h2⟩ := h
    subst h2
    exact ⟨_, lookupEntry_cons_self _ _ _, rfl⟩
  · rcases hv : e.vtree with _ | t
    · simp only [hl, hv, Prod.mk.injEq] at h
      obtain ⟨_, h2⟩ := h
      subst h2
      exact ⟨_, lookupEntry_cons_self _ _ _, rfl⟩
    · simp only [hl, hv, Prod.mk.injEq] at h
      obtain ⟨_, h2⟩ := h
      subst h2
      exact ⟨e, hl, by simp [hv]⟩

theorem ComputeValidatorTree_of_cached (sha : Bytes → Root) (slot : Nat)
    (validators : List Validator) (cache : Cache)
    (hc : vtreeCached cache slot) :
    (ComputeValidatorTree sha slot validators cache).2 = cache := by
  obtain ⟨e, hl, hv⟩ := hc
  rcases hv2 : e.vtree with _ | t
  · rw [hv2] at hv; cases hv
  · unfold ComputeValidatorTree
    simp [hl, hv2]

theorem ComputeValidatorTree_preserves_tlrCached (sha : Bytes → Root) (slot : Nat)
    (validators : List Validator) (cache : Cache) (r : Except Err (List Root)) (c' : Cache)
    (tr : List Root)
    (h : ComputeValidatorTree sha slot validators cache = (r, c'))
    (ht : tlrCachedWith cache slot tr) :
    tlrCachedWith c' slot tr := by
  obtain ⟨e, hl, he⟩ := ht
  unfold ComputeValidatorTree at h
  rcases hv : e.vtree with _ | t
  · simp only [hl, hv, Prod.mk.injEq] at h
    obtain ⟨_, h2⟩ := h
    subst h2
    exact ⟨_, lookupEntry_cons_self _ _ _, he⟩
  · simp only [hl, hv, Prod.mk.injEq] at h
    obtain ⟨_, h2⟩ := h
    subst h2
    exact ⟨e, hl, he⟩

theorem ProveValidatorAgainstValidatorList_stable (sha : Bytes → Root) (slot : Nat)
    (validators : List Validator) (cache : Cache) (validatorIndex : Nat)
    (r : Except Err Proof) (c' : Cache)
    (h : ProveValidatorAgainstValidatorList sha slot validators cache validatorIndex
      = (r, c')) :
    ProveValidatorAgainstValidatorList sha slot validators c' validatorIndex = (r, c') := by
  obtain ⟨t, c1, hct⟩ := ComputeValidatorTree_ok sha slot validators cache
  unfold ProveValidatorAgainstValidatorList at h ⊢
  rw [hct] at h
  dsimp only at h
  rcases hm : ComputeMerkleProofFromTree sha t validatorIndex
      ValidatorListMerkleSubtreeNumLayers with e | p
  · rw [hm] at h
    simp only [Prod.mk.injEq] at h
    obtain ⟨h1, h2⟩ := h
    subst h1; subst h2
    rw [ComputeValidatorTree_stable sha slot validators cache _ _ hct]
    dsimp only
    rw [hm]
  · rw [hm] at h
    simp only [Prod.mk.injEq] at h
    obtain ⟨h1, h2⟩ := h
    subst h1; subst h2
    rw [ComputeValidatorTree_stable sha slot validators cache _ _ hct]
    dsimp only
    rw [hm]

theorem ProveValidatorAgainstValidatorList_out_cached (sha : Bytes → Root) (slot : Nat)
    (validators : List Validator) (cache : Cache) (validatorIndex : Nat)
    (r : Except Err Proof) (c' : Cache)
    (h : ProveValidatorAgainstValidatorList sha slot validators cache validatorIndex
      = (r, c')) :
    vtreeCached c' slot := by
  obtain ⟨t, c1, hct⟩ := ComputeValidatorTree_ok sha slot validators cache
  unfold ProveValidatorAgainstValidatorList at h
  rw [hct] at h
  dsimp only at h
  rcases hm : ComputeMerkleProofFromTree sha t validatorIndex
      ValidatorListMerkleSubtreeNumLayers with e | p
  all_goals (
    rw [hm] at h
    simp only [Prod.mk.injEq] at h
    obtain ⟨_, h2⟩ := h
    subst h2
    exact ComputeValidatorTree_out_cached sha slot validators cache _ _ hct)

theorem ProveValidatorAgainstValidatorList_of_cached (sha : Bytes → Root) (slot : Nat)
    (validators : List Validator) (cache : Cache) (validatorIndex : Nat)
    (hc : vtreeCached cache slot) :
    (ProveValidatorAgainstValidatorList sha slot validators cache validatorIndex).2
      = cache := by
  rcases hct : ComputeValidatorTree sha slot validators cache with ⟨rr, cc⟩
  have hcc : cc = cache := by
    have h2 := ComputeValidatorTree_of_cached sha slot validators cache hc
    rw [hct] at h2
    exact h2
  subst hcc
  unfold ProveValidatorAgainstValidatorList
  rw [hct]
  rcases rr with e | t
  · rfl
  · dsimp only
    rcases hm : ComputeMerkleProofFromTree sha t validatorIndex
        ValidatorListMerkleSubtreeNumLayers with e | p <;> simp [hm]

theorem ProveValidatorAgainstValidatorList_preserves_tlrCached (sha : Bytes → Root)
    (slot : Nat) (validators : List Validator) (cache : Cache) (validatorIndex : Nat)
    (r : Except Err Proof) (c' : Cache) (tr : List Root)
    (h : ProveValidatorAgainstValidatorList sha slot validators cache validatorIndex
      = (r, c'))
    (ht : tlrCachedWith cache slot tr) :
    tlrCachedWith c' slot tr := by
  obtain ⟨t, c1, hct⟩ := ComputeValidatorTree_ok sha slot validators cache
  unfold ProveValidatorAgainstValidatorList at h
  rw [hct] at h
  dsimp only at h
  rcases hm : ComputeMerkleProofFromTree sha t validatorIndex
      ValidatorListMerkleSubtreeNumLayers with e | p
  all_goals (
    rw [hm] at h
    simp only [Prod.mk.injEq] at h
    obtain ⟨_, h2⟩ := h
    subst h2
    exact ComputeValidatorTree_preserves_tlrCached sha slot validators cache _ _ tr hct ht)

theorem ProveValidatorAgainstBeaconState_stable (sha : Bytes → Root) (slot : Nat)
    (validators : List Validator) (tlr : BeaconStateTopLevelRoots) (cache : Cache)
    (validatorIndex : Nat) (r : Except Err Proof) (c' : Cache)
    (h : ProveValidatorAgainstBeaconState sha slot validators tlr cache validatorIndex
      = (r, c')) :
    ProveValidatorAgainstBeaconState sha slot validators tlr c' validatorIndex = (r, c') := by
  unfold ProveValidatorAgainstBeaconState at h ⊢
  rcases htp : ProveBeaconTopLevelRootAgainstBeaconState sha tlr ValidatorListIndex
    with e | tp
  · rw [htp] at h
    dsimp only at h
    simp only [Prod.mk.injEq] at h
    obtain ⟨h1, h2⟩ := h
    subst h1; subst h2
    rfl
  · rw [htp] at h
    dsimp only at h
    rcases hvp : ProveValidatorAgainstValidatorList sha slot validators cache validatorIndex
      with ⟨(e | vp), c1⟩
    · rw [hvp] at h
      dsimp only at h
      simp only [Prod.mk.injEq] at h
      obtain ⟨h1, h2⟩ := h
      subst h1; subst h2
      dsimp only
      rw [ProveValidatorAgainstValidatorList_stable sha slot validators cache
        validatorIndex _ _ hvp]
    · rw [hvp] at h
      dsimp only at h
      simp only [Prod.mk.injEq] at h
      obtain ⟨h1, h2⟩ := h
      subst h1; subst h2
      dsimp only
      rw [ProveValidatorAgainstValidatorList_stable sha slot validators cache
        validatorIndex _ _ hvp]

theorem ProveValidatorAgainstBeaconState_of_cached (sha : Bytes → Root) (slot : Nat)
    (validators : List Validator) (tlr : BeaconStateTopLevelRoots) (cache : Cache)
    (validatorIndex : Nat) (hc : vtreeCached cache slot) :
    (ProveValidatorAgainstBeaconState sha slot validators tlr cache validatorIndex).2
      = cache := by
  unfold ProveValidatorAgainstBeaconState
  rcases htp : ProveBeaconTopLevelRootAgainstBeaconState sha tlr ValidatorListIndex
    with e | tp
  · rfl
  · dsimp only
    rcases hvp : ProveValidatorAgainstValidatorList sha slot validators cache validatorIndex
      with ⟨rv, c1⟩
    have hc1 : c1 = cache := by
      have h2 := ProveValidatorAgainstValidatorList_of_cached sha slot validators cache
        validatorIndex hc
      rw [hvp] at h2
      exact h2
    subst hc1
    rcases rv with e | vp <;> simp

theorem ProveValidatorAgainstBeaconState_out_cached (sha : Bytes → Root) (slot : Nat)
    (validators : List Validator) (tlr : BeaconStateTopLevelRoots) (cache : Cache)
    (validatorIndex : Nat) (p : Proof) (c' : Cache)
    (h : ProveValidatorAgainstBeaconState sha slot validators tlr cache validatorIndex
      = (.ok p, c')) :
    vtreeCached c' slot := by
  unfold ProveValidatorAgainstBeaconState at h
  rcases htp : ProveBeaconTopLevelRootAgainstBeaconState sha tlr ValidatorListIndex
    with e | tp
  · rw [htp] at h; cases h
  · rw [htp] at h
    dsimp only at h
    rcases hvp : ProveValidatorAgainstValidatorList sha slot validators cache validatorIndex
      with ⟨(e | vp), c1⟩
    · rw [hvp] at h; cases h
    · rw [hvp] at h
      simp only [Prod.mk.injEq] at h
      obtain ⟨_, h2⟩ := h
      subst h2
      exact ProveValidatorAgainstValidatorList_out_cached sha slot validators cache
        validatorIndex _ _ hvp

theorem ProveValidatorAgainstBeaconState_preserves_tlrCached (sha : Bytes → Root)
    (slot : Nat) (validators : List Validator) (tlr : BeaconStateTopLevelRoots)
    (cache : Cache) (validatorIndex : Nat) (r : Except Err Proof) (c' : Cache)
    (tr : List Root)
    (h : ProveValidatorAgainstBeaconState sha slot validators tlr cache validatorIndex
      = (r, c'))
    (ht : tlrCachedWith cache slot tr) :
    tlrCachedWith c' slot tr := by
  unfold ProveValidatorAgainstBeaconState at h
  rcases htp : ProveBeaconTopLevelRootAgainstBeaconState sha tlr ValidatorListIndex
    with e | tp
  · rw [htp] at h
    simp only [Prod.mk.injEq] at h
    obtain ⟨_, h2⟩ := h
    subst h2
    exact ht
  · rw [htp] at h
    dsimp only at h
    rcases hvp : ProveValidatorAgainstValidatorList sha slot validators cache validatorIndex
      with ⟨(e | vp), c1⟩
    all_goals (
      rw [hvp] at h
      simp only [Prod.mk.injEq] at h
      obtain ⟨_, h2⟩ := h
      subst h2
      exact ProveValidatorAgainstValidatorList_preserves_tlrCached sha slot validators
        cache validatorIndex _ _ tr hvp ht)

theorem proveContainersLoop_of_cached (sha : Bytes → Root) (slot : Nat)
    (validators : List Validator) (tlr : BeaconStateTopLevelRoots) :
    ∀ (validatorIndices : List Nat) (cache : Cache), vtreeCached cache slot →
    (proveContainersLoop sha slot validators tlr cache validatorIndices).2 = cache := by
  intro validatorIndices
  induction validatorIndices with
  | nil => intro cache _; rfl
  | cons i rest ih =>
    intro cache hc
    unfold proveContainersLoop
    rcases hp : ProveValidatorAgainstBeaconState sha slot validators tlr cache i
      with ⟨rp, c1⟩
    have hc1 : c1 = cache := by
      have h2 := ProveValidatorAgainstBeaconState_of_cached sha slot validators tlr
        cache i hc
      rw [hp] at h2
      exact h2
    subst hc1
    rcases rp with e | p
    · rfl
    · dsimp only
      by_cases hv : i < validators.length
      · rw [dif_pos hv]
        rcases hl2 : proveContainersLoop sha slot validators tlr c1 rest with ⟨rl, c2⟩
        have hc2 : c2 = c1 := by
          have h2 := ih c1 hc
          rw [hl2] at h2
          exact h2
        subst hc2
        rcases rl with e | pr
        · rfl
        · rcases pr with ⟨ps, fs⟩
          rfl
      · rw [dif_neg hv]

theorem proveContainersLoop_stable (sha : Bytes → Root) (slot : Nat)
    (validators : List Validator) (tlr : BeaconStateTopLevelRoots)
    (validatorIndices : List Nat) (cache : Cache)
    (r : Except Err (List Proof × List (List Bytes32))) (c' : Cache)
    (h : proveContainersLoop sha slot validators tlr cache validatorIndices = (r, c')) :
    proveContainersLoop sha slot validators tlr c' validatorIndices = (r, c') := by
  rcases validatorIndices with _ | ⟨i, rest⟩
  · unfold proveContainersLoop at h
    simp only [Prod.mk.injEq] at h
    obtain ⟨h1, h2⟩ := h
    subst h1; subst h2
    rfl
  · unfold proveContainersLoop at h ⊢
    rcases hp : ProveValidatorAgainstBeaconState sha slot validators tlr cache i
      with ⟨rp, c1⟩
    rw [hp] at h
    rcases rp with e | p
    · dsimp only at h
      simp only [Prod.mk.injEq] at h
      obtain ⟨h1, h2⟩ := h
      subst h1; subst h2
      rw [ProveValidatorAgainstBeaconState_stable sha slot validators tlr cache i _ _ hp]
    · dsimp only at h
      by_cases hv : i < validators.length
      · rw [dif_pos hv] at h
        have hcached : vtreeCached c1 slot :=
          ProveValidatorAgainstBeaconState_out_cached sha slot validators tlr cache i
            p c1 hp
        rcases hl2 : proveContainersLoop sha slot validators tlr c1 rest with ⟨rl, c2⟩
        have hc2 : c2 = c1 := by
          have h2 := proveContainersLoop_of_cached sha slot validators tlr rest c1 hcached
          rw [hl2] at h2
          exact h2
        subst hc2
        rw [hl2] at h
        rcases rl with e | pr
        · simp only [Prod.mk.injEq] at h
          obtain ⟨h1, h2⟩ := h
          subst h1; subst h2
          rw [ProveValidatorAgainstBeaconState_stable sha slot validators tlr cache i _ _ hp]
          dsimp only
          rw [dif_pos hv, hl2]
        · rcases pr with ⟨ps, fs⟩
          simp only [Prod.mk.injEq] at h
          obtain ⟨h1, h2⟩ := h
          subst h1; subst h2
          rw [ProveValidatorAgainstBeaconState_stable sha slot validators tlr cache i _ _ hp]
          dsimp only
          rw [dif_pos hv, hl2]
      · rw [dif_neg hv] at h
        simp only [Prod.mk.injEq] at h
        obtain ⟨h1, h2⟩ := h
        subst h1; subst h2
        rw [ProveValidatorAgainstBeaconState_stable sha slot validators tlr cache i _ _ hp]
        dsimp only
        rw [dif_neg hv]

theorem proveContainersLoop_preserves_tlrCached (sha : Bytes → Root) (slot : Nat)
    (validators : List Validator) (tlr : BeaconStateTopLevelRoots) (tr : List Root) :
    ∀ (validatorIndices : List Nat) (cache : Cache)
      (r : Except Err (List Proof × List (List Bytes32))) (c' : Cache),
    proveContainersLoop sha slot validators tlr cache validatorIndices = (r, c') →
    tlrCachedWith cache slot tr → tlrCachedWith c' slot tr := by
  intro validatorIndices
  induction validatorIndices with
  | nil =>
    intro cache r c' h ht
    unfold proveContainersLoop at h
    simp only [Prod.mk.injEq] at h
    obtain ⟨_, h2⟩ := h
    subst h2
    exact ht
  | cons i rest ih =>
    intro cache r c' h ht
    unfold proveContainersLoop at h
    rcases hp : ProveValidatorAgainstBeaconState sha slot validators tlr cache i
      with ⟨rp, c1⟩
    rw [hp] at h
    have ht1 : tlrCachedWith c1 slot tr :=
      ProveValidatorAgainstBeaconState_preserves_tlrCached sha slot validators tlr cache
        i _ _ tr hp ht
    rcases rp with e | p
    · dsimp only at h
      simp only [Prod.mk.injEq] at h
      obtain ⟨_, h2⟩ := h
      subst h2
      exact ht1
    · dsimp only at h
      by_cases hv : i < validators.length
      · rw [dif_pos hv] at h
        rcases hl2 : proveContainersLoop sha slot validators tlr c1 rest with ⟨rl, c2⟩
        rw [hl2] at h
        have ht2 : tlrCachedWith c2 slot tr := ih c1 rl c2 hl2 ht1
        rcases rl with e | pr
        · simp only [Prod.mk.injEq] at h
          obtain ⟨_, h2⟩ := h
          subst h2
          exact ht2
        · rcases pr with ⟨ps, fs⟩
          simp only [Prod.mk.injEq] at h
          obtain ⟨_, h2⟩ := h
          subst h2
          exact ht2
      · rw [dif_neg hv] at h
        simp only [Prod.mk.injEq] at h
        obtain ⟨_, h2⟩ := h
        subst h2
        exact ht1

theorem proveContainersLoop_ok_length (sha : Bytes → Root) (slot : Nat)
    (validators : List Validator) (tlr : BeaconStateTopLevelRoots) :
    ∀ (validatorIndices : List Nat) (cache : Cache)
      (ps : List Proof) (fs : List (List Bytes32)) (c' : Cache),
    proveContainersLoop sha slot validators tlr cache validatorIndices
      = (.ok (ps, fs), c') →
    ps.length = validatorIndices.length ∧ fs.length = validatorIndices.length := by
  intro validatorIndices
  induction validatorIndices with
  | nil =>
    intro cache ps fs c' h
    unfold proveContainersLoop at h
    simp only [Prod.mk.injEq, Except.ok.injEq] at h
    obtain ⟨⟨h1, h2⟩, _⟩ := h
    subst h1; subst h2
    exact ⟨rfl, rfl⟩
  | cons i rest ih =>
    intro cache ps fs c' h
    unfold proveContainersLoop at h
    rcases hp : ProveValidatorAgainstBeaconState sha slot validators tlr cache i
      with ⟨rp, c1⟩
    rw [hp] at h
    rcases rp with e | p
    · dsimp only at h
      simp only [Prod.mk.injEq] at h
      obtain ⟨h1, _⟩ := h
      cases h1
    · dsimp only at h
      by_cases hv : i < validators.length
      · rw [dif_pos hv] at h
        rcases hl2 : proveContainersLoop sha slot validators tlr c1 rest with ⟨rl, c2⟩
        rw [hl2] at h
        rcases rl with e | pr
        · simp only [Prod.mk.injEq] at h
          obtain ⟨h1, _⟩ := h
          cases h1
        · rcases pr with ⟨ps2, fs2⟩
          simp only [Prod.mk.injEq, Except.ok.injEq] at h
          obtain ⟨⟨h1, h2⟩, _⟩ := h
          subst h1; subst h2
          obtain ⟨ih1, ih2⟩ := ih c1 ps2 fs2 c2 hl2
          constructor <;> simp [ih1, ih2]
      · rw [dif_neg hv] at h
        simp only [Prod.mk.injEq] at h
        obtain ⟨h1, _⟩ := h
        cases h1

theorem proveContainersLoop_err_of_oob (sha : Bytes → Root) (slot : Nat)
    (validators : List Validator) (tlr : BeaconStateTopLevelRoots) :
    ∀ (validatorIndices : List Nat) (cache : Cache)
      (r : Except Err (List Proof × List (List Bytes32))) (c' : Cache),
    (∃ i, i ∈ validatorIndices ∧ validators.length ≤ i) →
    proveContainersLoop sha slot validators tlr cache validatorIndices = (r, c') →
    ∃ e, r = .error e := by
  intro validatorIndices
  induction validatorIndices with
  | nil =>
    intro cache r c' hoob _
    obtain ⟨i, hi, _⟩ := hoob
    cases hi
  | cons i rest ih =>
    intro cache r c' hoob h
    unfold proveContainersLoop at h
    rcases hp : ProveValidatorAgainstBeaconState sha slot validators tlr cache i
      with ⟨rp, c1⟩
    rw [hp] at h
    rcases rp with e | p
    · dsimp only at h
      simp only [Prod.mk.injEq] at h
      obtain ⟨h1, _⟩ := h
      exact ⟨e, h1.symm⟩
    · dsimp only at h
      by_cases hv : i < validators.length
      · rw [dif_pos hv] at h
        obtain ⟨j, hj, hjlen⟩ := hoob
        have hjrest : j ∈ rest := by
          rcases List.mem_cons.mp hj with hji | hjr
          · subst hji; omega
          · exact hjr
        rcases hl2 : proveContainersLoop sha slot validators tlr c1 rest with ⟨rl, c2⟩
        rw [hl2] at h
        obtain ⟨e, he⟩ := ih c1 rl c2 ⟨j, hjrest, hjlen⟩ hl2
        subst he
        simp only [Prod.mk.injEq] at h
        obtain ⟨h1, _⟩ := h
        exact ⟨e, h1.symm⟩
      · rw [dif_neg hv] at h
        simp only [Prod.mk.injEq] at h
        obtain ⟨h1, _⟩ := h
        exact ⟨.outOfBoundsAccess, h1.symm⟩

theorem ComputeBeaconStateTopLevelRoots_stable
    (tlrFields : VersionedBeaconState → Except Err (List Root))
    (state : VersionedBeaconState) (cache : Cache)
    (r : Except Err BeaconStateTopLevelRoots) (c' : Cache)
    (h : ComputeBeaconStateTopLevelRoots tlrFields state cache = (r, c')) :
    ComputeBeaconStateTopLevelRoots tlrFields state c' = (r, c') := by
  unfold ComputeBeaconStateTopLevelRoots at h ⊢
  rcases hs : state.slotRes with e | slot
  all_goals simp only [hs] at h ⊢
  · simp only [Prod.mk.injEq] at h
    obtain ⟨h1, h2⟩ := h
    subst h1; subst h2
    rfl
  · rcases hl : lookupEntry cache slot with _ | e
    · simp only [hl] at h
      rcases hf : tlrFields state with ef | r0
      · simp only [hf, Prod.mk.injEq] at h
        obtain ⟨h1, h2⟩ := h
        subst h1; subst h2
        simp [hl, hf]
      · simp only [hf, Prod.mk.injEq] at h
        obtain ⟨h1, h2⟩ := h
        subst h1; subst h2
        simp [lookupEntry_cons_self]
    · simp only [hl] at h
      rcases he : e.tlr with _ | r0
      · simp only [he] at h
        rcases hf : tlrFields state with ef | r0
        · simp only [hf, Prod.mk.injEq] at h
          obtain ⟨h1, h2⟩ := h
          subst h1; subst h2
          simp [hl, he, hf]
        · simp only [hf, Prod.mk.injEq] at h
          obtain ⟨h1, h2⟩ := h
          subst h1; subst h2
          simp [lookupEntry_cons_self]
      · simp only [he, Prod.mk.injEq] at h
        obtain ⟨h1, h2⟩ := h
        subst h1; subst h2
        simp [hl, he]

theorem ComputeBeaconStateTopLevelRoots_ok_out
    (tlrFields : VersionedBeaconState → Except Err (List Root))
    (state : VersionedBeaconState) (cache : Cache)
    (tlrv : BeaconStateTopLevelRoots) (c' : Cache)
    (h : ComputeBeaconStateTopLevelRoots tlrFields state cache = (.ok tlrv, c')) :
    ∃ slot, state.slotRes = .ok slot ∧ tlrCachedWith c' slot tlrv.roots := by
  unfold ComputeBeaconStateTopLevelRoots at h
  rcases hs : state.slotRes with e | slot
  all_goals simp only [hs] at h
  · simp at h
  · refine ⟨slot, rfl, ?_⟩
    rcases hl : lookupEntry cache slot with _ | e
    · simp only [hl] at h
      rcases hf : tlrFields state with ef | r0
      · simp only [hf, Prod.mk.injEq] at h
        simp at h
      · simp only [hf, Prod.mk.injEq, Except.ok.injEq] at h
        obtain ⟨h1, h2⟩ := h
        subst h1; subst h2
        exact ⟨_, lookupEntry_cons_self _ _ _, rfl⟩
    · simp only [hl] at h
      rcases he : e.tlr with _ | r0
      · simp only [he] at h
        rcases hf : tlrFields state with ef | r0
        · simp only [hf, Prod.mk.injEq] at h
          simp at h
        · simp only [hf, Prod.mk.injEq, Except.ok.injEq] at h
          obtain ⟨h1, h2⟩ := h
          subst h1; subst h2
          exact ⟨_, lookupEntry_cons_self _ _ _, rfl⟩
      · simp only [he, Prod.mk.injEq, Except.ok.injEq] at h
        obtain ⟨h1, h2⟩ := h
        subst h1; subst h2
        exact ⟨e, hl, he⟩

theorem ComputeBeaconStateTopLevelRoots_of_cached
    (tlrFields : VersionedBeaconState → Except Err (List Root))
    (state : VersionedBeaconState) (cache : Cache) (slot : Nat) (r : List Root)
    (hs : state.slotRes = .ok slot) (hc : tlrCachedWith cache slot r) :
    ComputeBeaconStateTopLevelRoots tlrFields state cache = (.ok ⟨r⟩, cache) := by
  obtain ⟨e, hl, he⟩ := hc
  unfold ComputeBeaconStateTopLevelRoots
  simp [hs, hl, he]

/-- Inversion of `ProveValidatorContainers`: every call either fails with a
nil result object and a non-nil error, or succeeds with a non-nil,
complete result object (indices copied verbatim, one proof and one
validator-fields row per requested index, every requested index in range
of the state's validator list) and a nil error. -/
theorem ProveValidatorContainers_inv (sha : Bytes → Root)
    (tlrFields : VersionedBeaconState → Except Err (List Root))
    (genesisTime : Nat) (header : BeaconBlockHeader) (state : VersionedBeaconState)
    (cache : Cache) (validatorIndices : List Nat)
    (res : Option VerifyValidatorFieldsCallParams) (err : Option Err) (c' : Cache)
    (h : ProveValidatorContainers sha tlrFields genesisTime header state cache
      validatorIndices = (res, err, c')) :
    (res = none ∧ ∃ e, err = some e) ∨
    (∃ out, res = some out ∧ err = none ∧
      out.validatorIndices = validatorIndices ∧
      out.validatorFieldsProofs.length = validatorIndices.length ∧
      out.validatorFields.length = validatorIndices.length ∧
      ∀ validators, state.validatorsRes = .ok validators →
        ∀ i ∈ validatorIndices, i < validators.length) := by
  unfold ProveValidatorContainers at h
  rcases hs : state.slotRes with e | slot
  all_goals simp only [hs] at h
  · simp only [Prod.mk.injEq] at h
    obtain ⟨h1, h2, _⟩ := h
    exact .inl ⟨h1.symm, e, h2.symm⟩
  · rcases hv : state.validatorsRes with e | validators
    all_goals simp only [hv] at h
    · simp only [Prod.mk.injEq] at h
      obtain ⟨h1, h2, _⟩ := h
      exact .inl ⟨h1.symm, e, h2.symm⟩
    · rcases ht : ComputeBeaconStateTopLevelRoots tlrFields state cache with ⟨(e | tlrv), cT⟩
      all_goals simp only [ht] at h
      · simp only [Prod.mk.injEq] at h
        obtain ⟨h1, h2, _⟩ := h
        exact .inl ⟨h1.symm, e, h2.symm⟩
      · rcases hsr : ProveStateRootAgainstBlockHeader sha header with e | srp
        all_goals simp only [hsr] at h
        · simp only [Prod.mk.injEq] at h
          obtain ⟨h1, h2, _⟩ := h
          exact .inl ⟨h1.symm, e, h2.symm⟩
        · rcases hl : proveContainersLoop sha slot validators tlrv cT validatorIndices
            with ⟨(e | ⟨ps, fs⟩), c2⟩
          all_goals simp only [hl] at h
          · simp only [Prod.mk.injEq] at h
            obtain ⟨h1, h2, _⟩ := h
            exact .inl ⟨h1.symm, e, h2.symm⟩
          · simp only [Prod.mk.injEq] at h
            obtain ⟨h1, h2, _⟩ := h
            obtain ⟨hp, hf⟩ :=
              proveContainersLoop_ok_length sha slot validators tlrv validatorIndices
                cT ps fs c2 hl
            refine .inr ⟨_, h1.symm, h2.symm, rfl, hp, hf, ?_⟩
            intro validators2 hv2 i hi
            injection hv2 with hv2
            subst hv2
            by_contra hge
            obtain ⟨e2, he2⟩ :=
              proveContainersLoop_err_of_oob sha slot validators tlrv validatorIndices
                cT _ c2 ⟨i, hi, by omega⟩ hl
            simp at he2

/-- Inversion of `ProveValidatorFields`: every call either fails with both
results nil and a non-nil error, or succeeds with both results non-nil
and a nil error. -/
theorem ProveValidatorFields_inv (sha : Bytes → Root)
    (tlrFields : VersionedBeaconState → Except Err (List Root))
    (header : BeaconBlockHeader) (state : VersionedBeaconState)
    (cache : Cache) (validatorIndex : Nat)
    (r1 : Option StateRootProof) (r2 : Option Proof) (err : Option Err) (c' : Cache)
    (h : ProveValidatorFields sha tlrFields header state cache validatorIndex
      = (r1, r2, err, c')) :
    (r1 = none ∧ r2 = none ∧ ∃ e, err = some e) ∨
    (∃ srp pf, r1 = some srp ∧ r2 = some pf ∧ err = none) := by
  unfold ProveValidatorFields at h
  rcases hs : state.slotRes with e | slot
  all_goals simp only [hs] at h
  · simp only [Prod.mk.injEq] at h
    obtain ⟨h1, h2, h3, _⟩ := h
    exact .inl ⟨h1.symm, h2.symm, e, h3.symm⟩
  · rcases hv : state.validatorsRes with e | validators
    all_goals simp only [hv] at h
    · simp only [Prod.mk.injEq] at h
      obtain ⟨h1, h2, h3, _⟩ := h
      exact .inl ⟨h1.symm, h2.symm, e, h3.symm⟩
    · rcases ht : ComputeBeaconStateTopLevelRoots tlrFields state cache with ⟨(e | tlrv), cT⟩
      all_goals simp only [ht] at h
      · simp only [Prod.mk.injEq] at h
        obtain ⟨h1, h2, h3, _⟩ := h
        exact .inl ⟨h1.symm, h2.symm, e, h3.symm⟩
      · rcases hsr : ProveStateRootAgainstBlockHeader sha header with e | srp
        all_goals simp only [hsr] at h
        · simp only [Prod.mk.injEq] at h
          obtain ⟨h1, h2, h3, _⟩ := h
          exact .inl ⟨h1.symm, h2.symm, e, h3.symm⟩
        · rcases hp : ProveValidatorAgainstBeaconState sha slot validators tlrv cT
              validatorIndex with ⟨(e | pf), c2⟩
          all_goals simp only [hp] at h
          · simp only [Prod.mk.injEq] at h
            obtain ⟨h1, h2, h3, _⟩ := h
            exact .inl ⟨h1.symm, h2.symm, e, h3.symm⟩
          · simp only [Prod.mk.injEq] at h
            obtain ⟨h1, h2, h3, _⟩ := h
            exact .inr ⟨_, _, h1.symm, h2.symm, h3.symm⟩

/-- Counterexample to claim C4 as stated: with one validator and requested
index 1 (an index equal to the validator count, hence out of range), the
call fails not with `ErrIndexOutOfRange` but with the out-of-bounds slice
access (a Go runtime panic) hit when reading `validators[1]` for the
validator fields: the in-list merkle proof extraction only rejects
indices at or beyond the list capacity `2 ^ 40`. -/
theorem claim_C4_counterexample :
    state0.validatorsRes = .ok vals0 ∧ vals0.length ≤ 1 ∧
    (ProveValidatorContainers toySha toyTLRFields 0 header0 state0 [] [1]).2.1
      = some Err.outOfBoundsAccess ∧
    Err.outOfBoundsAccess ≠ Err.indexOutOfRange := by
  refine ⟨rfl, by decide, by decide, by decide⟩

/-- Claim C4, amended.  For every call to `ProveValidatorContainers` with
some requested validator index at or beyond the current validator count
of the supplied beacon state, the call fails — it never returns a proof
object, and the error slot is set — but the failure kind is
`ErrIndexOutOfRange` only for indices at or beyond the list capacity
`2 ^ 40`; an index in `[count, 2 ^ 40)` instead hits an out-of-bounds
slice access (a Go runtime panic, modelled as `Err.outOfBoundsAccess`)
when the validator's fields are read. -/
theorem claim_C4_amended_oob_index_never_returns_proof (sha : Bytes → Root)
    (tlrFields : VersionedBeaconState → Except Err (List Root))
    (genesisTime : Nat) (header : BeaconBlockHeader) (state : VersionedBeaconState)
    (cache : Cache) (validatorIndices : List Nat) (validators : List Validator)
    (res : Option VerifyValidatorFieldsCallParams) (err : Option Err) (c' : Cache)
    (hv : state.validatorsRes = .ok validators)
    (hoob : ∃ i, i ∈ validatorIndices ∧ validators.length ≤ i)
    (h : ProveValidatorContainers sha tlrFields genesisTime header state cache
      validatorIndices = (res, err, c')) :
    res = none ∧ ∃ e, err = some e := by
  rcases ProveValidatorContainers_inv sha tlrFields genesisTime header state cache
      validatorIndices res err c' h with ⟨h1, he⟩ | ⟨out, _, _, _, _, _, hbound⟩
  · exact ⟨h1, he⟩
  · obtain ⟨i, hi, hge⟩ := hoob
    have := hbound validators hv i hi
    omega

/-- Witness for the amended claim C4 at a concrete input. -/
theorem claim_C4_amended_oob_index_never_returns_proof_witness :
    (ProveValidatorContainers toySha toyTLRFields 0 header0 state0 [] [1]).1 = none ∧
    ∃ e, (ProveValidatorContainers toySha toyTLRFields 0 header0 state0 [] [1]).2.1
      = some e :=
  claim_C4_amended_oob_index_never_returns_proof toySha toyTLRFields 0 header0 state0
    [] [1] vals0
    (ProveValidatorContainers toySha toyTLRFields 0 header0 state0 [] [1]).1
    (ProveValidatorContainers toySha toyTLRFields 0 header0 state0 [] [1]).2.1
    (ProveValidatorContainers toySha toyTLRFields 0 header0 state0 [] [1]).2.2
    rfl ⟨1, by decide, by decide⟩ rfl

/-- Counterexample to the cache clause of claim C5 as stated: a failing
call (requested index `2 ^ 40`, rejected by the merkle proof extractor)
returns a nil result and a non-nil error, yet has mutated the cache: the
top-level-roots and validator-subtree entries computed by sub-steps that
succeeded before the failure remain inserted (the cache grew from empty
to non-empty). -/
theorem claim_C5_counterexample :
    (∃ e, (ProveValidatorContainers toySha toyTLRFields 0 header0 state0 [] [2 ^ 40]).2.1
      = some e) ∧
    (ProveValidatorContainers toySha toyTLRFields 0 header0 state0 [] [2 ^ 40]).1 = none ∧
    (ProveValidatorContainers toySha toyTLRFields 0 header0 state0 [] [2 ^ 40]).2.2
      ≠ ([] : Cache) := by
  refine ⟨⟨Err.indexOutOfRange, by decide⟩, by decide, by decide⟩

/-- Claim C5, amended.  For every input on which any internal step of
`ProveValidatorContainers` or `ProveValidatorFields` fails, the top-level
call returns an error together with nil result objects, and there are no
partial results: a call either returns a complete, self-consistent proof
object (indices copied verbatim, one proof and one validator-fields row
per requested index) or an error.  The cache, however, may retain the
entries inserted by sub-computations that completed before the failure. -/
theorem claim_C5_amended_error_returns_nil_no_partial (sha : Bytes → Root)
    (tlrFields : VersionedBeaconState → Except Err (List Root))
    (genesisTime : Nat) (header : BeaconBlockHeader) (state : VersionedBeaconState)
    (cache : Cache) (validatorIndices : List Nat) (validatorIndex : Nat)
    (res : Option VerifyValidatorFieldsCallParams) (err : Option Err) (c' : Cache)
    (r1 : Option StateRootProof) (r2 : Option Proof) (err2 : Option Err) (c2 : Cache)
    (h1 : ProveValidatorContainers sha tlrFields genesisTime header state cache
      validatorIndices = (res, err, c'))
    (h2 : ProveValidatorFields sha tlrFields header state cache validatorIndex
      = (r1, r2, err2, c2)) :
    (err.isSome → res = none) ∧
    (err = none → ∃ out, res = some out ∧
      out.validatorIndices = validatorIndices ∧
      out.validatorFieldsProofs.length = validatorIndices.length ∧
      out.validatorFields.length = validatorIndices.length) ∧
    (err2.isSome → r1 = none ∧ r2 = none) ∧
    (err2 = none → r1.isSome ∧ r2.isSome) := by
  refine ⟨?_, ?_, ?_, ?_⟩
  · intro hsome
    rcases ProveValidatorContainers_inv sha tlrFields genesisTime header state cache
        validatorIndices res err c' h1 with ⟨hr, _⟩ | ⟨out, _, he, _⟩
    · exact hr
    · rw [he] at hsome; cases hsome
  · intro hnone
    rcases ProveValidatorContainers_inv sha tlrFields genesisTime header state cache
        validatorIndices res err c' h1 with ⟨_, e, he⟩ | ⟨out, hr, _, hidx, hp, hf, _⟩
    · rw [he] at hnone; cases hnone
    · exact ⟨out, hr, hidx, hp, hf⟩
  · intro hsome
    rcases ProveValidatorFields_inv sha tlrFields header state cache validatorIndex
        r1 r2 err2 c2 h2 with ⟨ha, hb, _⟩ | ⟨srp, pf, _, _, he⟩
    · exact ⟨ha, hb⟩
    · rw [he] at hsome; cases hsome
  · intro hnone
    rcases ProveValidatorFields_inv sha tlrFields header state cache validatorIndex
        r1 r2 err2 c2 h2 with ⟨_, _, e, he⟩ | ⟨srp, pf, ha, hb, _⟩
    · rw [he] at hnone; cases hnone
    · rw [ha, hb]; exact ⟨rfl, rfl⟩

/-- Witness for the amended claim C5 at a concrete input. -/
theorem claim_C5_amended_error_returns_nil_no_partial_witness :
    ((ProveValidatorContainers toySha toyTLRFields 0 header0 state0 [] [0]).2.1.isSome →
      (ProveValidatorContainers toySha toyTLRFields 0 header0 state0 [] [0]).1 = none) ∧
    ((ProveValidatorContainers toySha toyTLRFields 0 header0 state0 [] [0]).2.1 = none →
      ∃ out, (ProveValidatorContainers toySha toyTLRFields 0 header0 state0 [] [0]).1
          = some out ∧
        out.validatorIndices = [0] ∧
        out.validatorFieldsProofs.length = [0].length ∧
        out.validatorFields.length = [0].length) ∧
    ((ProveValidatorFields toySha toyTLRFields header0 state0 [] 0).2.2.1.isSome →
      (ProveValidatorFields toySha toyTLRFields header0 state0 [] 0).1 = none ∧
      (ProveValidatorFields toySha toyTLRFields header0 state0 [] 0).2.1 = none) ∧
    ((ProveValidatorFields toySha toyTLRFields header0 state0 [] 0).2.2.1 = none →
      (ProveValidatorFields toySha toyTLRFields header0 state0 [] 0).1.isSome ∧
      (ProveValidatorFields toySha toyTLRFields header0 state0 [] 0).2.1.isSome) :=
  claim_C5_amended_error_returns_nil_no_partial toySha toyTLRFields 0 header0 state0
    [] [0] 0
    (ProveValidatorContainers toySha toyTLRFields 0 header0 state0 [] [0]).1
    (ProveValidatorContainers toySha toyTLRFields 0 header0 state0 [] [0]).2.1
    (ProveValidatorContainers toySha toyTLRFields 0 header0 state0 [] [0]).2.2
    (ProveValidatorFields toySha toyTLRFields header0 state0 [] 0).1
    (ProveValidatorFields toySha toyTLRFields header0 state0 [] 0).2.1
    (ProveValidatorFields toySha toyTLRFields header0 state0 [] 0).2.2.1
    (ProveValidatorFields toySha toyTLRFields header0 state0 [] 0).2.2.2
    rfl rfl

/-- Claim C7.  `ProveValidatorContainers` is deterministic: it is a pure
function of its inputs (so two invocations on byte-identical block
header, beacon state, index list, and cache state trivially coincide),
and moreover a second invocation with the same inputs, run on the cache
state the first invocation left behind, reproduces the first invocation's
output exactly — result object, error slot, and cache. -/
theorem claim_C7_determinism_of_repeat_invocation (sha : Bytes → Root)
    (tlrFields : VersionedBeaconState → Except Err (List Root))
    (genesisTime : Nat) (header : BeaconBlockHeader) (state : VersionedBeaconState)
    (cache : Cache) (validatorIndices : List Nat)
    (out : Option VerifyValidatorFieldsCallParams × Option Err × Cache)
    (h : ProveValidatorContainers sha tlrFields genesisTime header state cache
      validatorIndices = out) :
    ProveValidatorContainers sha tlrFields genesisTime header state out.2.2
      validatorIndices = out := by
  unfold ProveValidatorContainers at h ⊢
  rcases hs : state.slotRes with e | slot
  all_goals simp only [hs] at h ⊢
  · subst h; rfl
  · rcases hv : state.validatorsRes with e | validators
    all_goals simp only [hv] at h ⊢
    · subst h; rfl
    · rcases ht : ComputeBeaconStateTopLevelRoots tlrFields state cache
        with ⟨(e | tlrv), cT⟩
      all_goals simp only [ht] at h
      · subst h
        dsimp only
        rw [ComputeBeaconStateTopLevelRoots_stable tlrFields state cache _ _ ht]
      · rcases hsr : ProveStateRootAgainstBlockHeader sha header with e | srp
        all_goals simp only [hsr] at h ⊢
        · subst h
          dsimp only
          rw [ComputeBeaconStateTopLevelRoots_stable tlrFields state cache _ _ ht]
        · rcases hl : proveContainersLoop sha slot validators tlrv cT validatorIndices
            with ⟨(e | ⟨ps, fs⟩), c2⟩
          all_goals simp only [hl] at h
          all_goals (
            subst h
            obtain ⟨slot2, hs2, hcach⟩ :=
              ComputeBeaconStateTopLevelRoots_ok_out tlrFields state cache tlrv cT ht
            rw [hs] at hs2
            injection hs2 with hs2
            subst hs2
            have hcach2 :=
              proveContainersLoop_preserves_tlrCached sha slot validators tlrv tlrv.roots
                validatorIndices cT _ c2 hl hcach
            have htlr2 : ComputeBeaconStateTopLevelRoots tlrFields state c2
                = (.ok tlrv, c2) :=
              ComputeBeaconStateTopLevelRoots_of_cached tlrFields state c2 slot
                tlrv.roots hs hcach2
            dsimp only
            rw [htlr2]
            dsimp only
            rw [proveContainersLoop_stable sha slot validators tlrv validatorIndices
              cT _ _ hl])

/-- Witness for claim C7 at a concrete input. -/
theorem claim_C7_determinism_of_repeat_invocation_witness :
    ProveValidatorContainers toySha toyTLRFields 0 header0 state0
      (ProveValidatorContainers toySha toyTLRFields 0 header0 state0 [] [0, 0]).2.2
      [0, 0]
      = ProveValidatorContainers toySha toyTLRFields 0 header0 state0 [] [0, 0] :=
  claim_C7_determinism_of_repeat_invocation toySha toyTLRFields 0 header0 state0
    [] [0, 0] (ProveValidatorContainers toySha toyTLRFields 0 header0 state0 [] [0, 0])
    rfl

end EPP

